import Mathlib

/-!
Verification development for the bank-statement header/name extraction
scripts (`pdf_header_analyzer.py`, `header_detector.py`,
`header_data_filter.py`, `pdf_header_extractor_v2.py`,
`test_pdf_extraction_report.py`).

The Python sources are shallowly embedded: every function the claims
touch is translated to an executable Lean definition operating on
`List Char` / `String`.  Each regular expression used by the source is
hand-translated into an executable matcher whose doc comment quotes the
original pattern; matches are existence checks (for boolean `re.search`
uses) or deterministic scanners mirroring Python's leftmost /
greedy-versus-lazy choices (where the source consumes match spans or
groups).
-/

set_option maxRecDepth 20000

namespace PdfExtract

/-- ASCII whitespace exactly as Python's `str.split()` / `str.strip()` and
`\s` treat it (space, tab, newline, carriage return, form feed, vertical
tab).  All inputs considered here are ASCII. -/
def pySpace (c : Char) : Bool :=
  c = ' ' || c = '\t' || c = '\n' || c = '\r' || c = '\x0b' || c = '\x0c'

/-- `\w`: ASCII word character `[A-Za-z0-9_]`. -/
def isWordChar (c : Char) : Bool :=
  c.isAlpha || c.isDigit || c = '_'

/-- ASCII lower-casing of a character (Python `str.lower()` on ASCII). -/
def lowChar (c : Char) : Char := c.toLower

/-- ASCII upper-casing of a character (Python `str.upper()` on ASCII). -/
def upChar (c : Char) : Char := c.toUpper

/-- Lower-case a character list. -/
def lowL (cs : List Char) : List Char := cs.map lowChar

/-- Upper-case a character list. -/
def upL (cs : List Char) : List Char := cs.map upChar

/-- Python `str.strip()` on a character list. -/
def stripL (cs : List Char) : List Char :=
  ((cs.dropWhile pySpace).reverse.dropWhile pySpace).reverse

/-- Python `str.strip()` on a `String`. -/
def pyStrip (s : String) : String := String.mk (stripL s.data)

/-- Python `str.split()` (split on whitespace runs, dropping empties);
`acc` holds the current word reversed. -/
def splitWsGo (acc : List Char) : List Char → List (List Char)
  | [] => if acc.isEmpty then [] else [acc.reverse]
  | c :: rest =>
    if pySpace c then
      if acc.isEmpty then splitWsGo [] rest
      else acc.reverse :: splitWsGo [] rest
    else splitWsGo (c :: acc) rest

/-- Python `str.split()` on a character list. -/
def splitWsL (cs : List Char) : List (List Char) := splitWsGo [] cs

/-- Python `str.split()` on a `String`, producing `String`s. -/
def pySplitWs (s : String) : List String :=
  (splitWsL s.data).map String.mk

/-- Python `str.split('\n')` (keeps empty pieces); `acc` holds the
current piece reversed. -/
def splitNlGo (acc : List Char) : List Char → List (List Char)
  | [] => [acc.reverse]
  | c :: rest =>
    if c = '\n' then acc.reverse :: splitNlGo [] rest
    else splitNlGo (c :: acc) rest

/-- Python `text.split('\n')` on a `String`. -/
def pySplitNl (s : String) : List String :=
  (splitNlGo [] s.data).map String.mk

/-- Join a list of words with single spaces (Python `' '.join`). -/
def joinSp : List (List Char) → List Char
  | [] => []
  | [w] => w
  | w :: ws => w ++ ' ' :: joinSp ws

/-- Join a list of strings with single spaces (Python `' '.join`). -/
def joinSpStr (ws : List String) : String :=
  String.mk (joinSp (ws.map String.data))

/-- Join a list of strings with newlines (Python `'\n'.join`). -/
def joinNlStr : List String → String
  | [] => ""
  | [w] => w
  | w :: ws => w ++ "\n" ++ joinNlStr ws

/-- Case-sensitive substring test (`needle in hay` for Python strings). -/
def containsSubL (hay needle : List Char) : Bool :=
  match hay with
  | [] => needle.isEmpty
  | _ :: rest => needle.isPrefixOf hay || containsSubL rest needle

/-- `needle in hay` for strings. -/
def strContains (hay needle : String) : Bool :=
  containsSubL hay.data needle.data

/-- Case-insensitive substring test. -/
def containsSubCI (hay needle : List Char) : Bool :=
  containsSubL (lowL hay) (lowL needle)

/-- Python `startswith` on character lists. -/
def startsWithL (hay needle : List Char) : Bool :=
  needle.isPrefixOf hay

/-- Python `str.isupper()`: at least one cased (here: ASCII alphabetic)
character, and every cased character upper-case. -/
def pyIsUpper (cs : List Char) : Bool :=
  cs.any (fun c => c.isAlpha) && cs.all (fun c => !c.isAlpha || c.isUpper)

/-- Python `word.strip(chars)` with chars dot, colon, slash, hyphen, as
used by stage 1 of `PDFHeaderAnalyzer.analyze_pdf`. -/
def stripPunct (cs : List Char) : List Char :=
  let p : Char → Bool := fun c => c = '.' || c = ':' || c = '/' || c = '-'
  ((cs.dropWhile p).reverse.dropWhile p).reverse

/-- All offsets of a character list together with the character directly
before each offset (`none` at offset 0); used to evaluate `\b` word
boundaries during `re.search`-style scans. -/
def scanPos (prev : Option Char) : List Char → List (Option Char × List Char)
  | [] => [(prev, [])]
  | c :: rest => (prev, c :: rest) :: scanPos (some c) rest

/-- `\b` before a word character: true when the previous character is
absent or not a word character. -/
def boundaryBefore (prev : Option Char) : Bool :=
  match prev with
  | none => true
  | some c => !isWordChar c

/-- `\b` after a word character: true at end of input or before a
non-word character. -/
def boundaryAfter : List Char → Bool
  | [] => true
  | c :: _ => !isWordChar c

/-! ### Existence-style match combinators

A matcher continuation `K := List Char → Bool` receives the input that
remains after the piece in front of it has consumed characters; a whole
pattern holds at a position iff some way of consuming characters makes
every continuation succeed.  This gives exactly the boolean value of
Python's `re.search` / `re.match` (which report whether any match
exists), independent of greedy/lazy preferences. -/

/-- Matcher continuation. -/
abbrev K := List Char → Bool

/-- Continuation that always succeeds (end of pattern). -/
def trueK : K := fun _ => true

/-- Continuation demanding end of input (the `$` anchor). -/
def endK : K := fun cs => cs.isEmpty

/-- Case-sensitive literal. -/
def litK : List Char → K → K
  | [], k => k
  | c :: ws, k => fun cs =>
    match cs with
    | [] => false
    | d :: rest => d = c && litK ws k rest

/-- Case-insensitive literal (pattern text given lower-case). -/
def litCIK : List Char → K → K
  | [], k => k
  | c :: ws, k => fun cs =>
    match cs with
    | [] => false
    | d :: rest => lowChar d = c && litCIK ws k rest

/-- One character from a class. -/
def chK (p : Char → Bool) (k : K) : K := fun cs =>
  match cs with
  | [] => false
  | d :: rest => p d && k rest

/-- Zero or more class characters (any split). -/
def starK (p : Char → Bool) (k : K) : List Char → Bool
  | [] => k []
  | c :: rest => k (c :: rest) || (p c && starK p k rest)

/-- One or more class characters (any split). -/
def plusK (p : Char → Bool) (k : K) : K := fun cs =>
  match cs with
  | [] => false
  | c :: rest => p c && starK p k rest

/-- Up to `n` further class characters (any split). -/
def upToK (p : Char → Bool) : Nat → K → K
  | 0, k => k
  | n + 1, k => fun cs =>
    k cs ||
      match cs with
      | [] => false
      | c :: rest => p c && upToK p n k rest

/-- Exactly `n` class characters. -/
def repK (p : Char → Bool) : Nat → K → K
  | 0, k => k
  | n + 1, k => chK p (repK p n k)

/-- Between `lo` and `lo + extra` class characters (any split). -/
def rangeK (p : Char → Bool) (lo extra : Nat) (k : K) : K :=
  repK p lo (upToK p extra k)

/-- Optional piece (any choice). -/
def optK (m : K → K) (k : K) : K := fun cs => m k cs || k cs

/-- `re.search` without word-boundary context: does the pattern match at
some offset? -/
def searchK (k : K) : List Char → Bool
  | [] => k []
  | c :: rest => k (c :: rest) || searchK k rest

/-- `re.search` for a pattern whose match condition may inspect the
character before the match offset (for a leading word boundary). -/
def searchPrev (pat : Option Char → List Char → Bool) (cs : List Char) : Bool :=
  (scanPos none cs).any (fun pr => pat pr.1 pr.2)

/-- Patterns of shape word-boundary, alternation of literal words,
word-boundary: some alternative is present at this offset with word
boundaries on both sides. -/
def wordAltBB (alts : List String) (prev : Option Char) (cs : List Char) : Bool :=
  boundaryBefore prev &&
    alts.any (fun a => a.data.isPrefixOf cs && boundaryAfter (cs.drop a.data.length))

/-- Patterns of shape word-boundary, alternation of literal words, then
more pattern: some alternative is present at this offset with a word
boundary before it, and the continuation accepts the rest. -/
def wordAltK (alts : List String) (k : K) (prev : Option Char) (cs : List Char) : Bool :=
  boundaryBefore prev && alts.any (fun a => litK a.data k cs)

/-! ### header_detector.py: table-marker rules

`is_table_header` and `is_transaction_line` are textually identical in
`header_detector.py` (lines 34-93), in `PDFHeaderAnalyzer`
(`pdf_header_analyzer.py` lines 388-420) and in the copies appended to
`header_data_filter.py`; a single embedding serves all of them. -/

/-- The `header_combinations` list of `is_table_header`. -/
def tableHeaderCombinations : List (List String) :=
  [["date", "particulars"], ["date", "description"], ["date", "narration"],
   ["date", "transaction"], ["txn", "date"], ["value", "date"],
   ["transaction", "details"]]

/-- The `column_terms` set of `is_table_header`. -/
def tableColumnTerms : List String :=
  ["date", "particulars", "description", "debit", "credit",
   "withdrawal", "deposit", "balance", "amount", "chq", "ref",
   "narration", "transaction", "details"]

/-- `is_table_header(line)`: the lower-cased line contains every term of
some known header combination, or at least 3 of its whitespace-split
words are known column terms. -/
def is_table_header (line : String) : Bool :=
  let l := lowL line.data
  tableHeaderCombinations.any (fun combo => combo.all (fun t => containsSubL l t.data)) ||
    decide (3 ≤ (splitWsL l).countP (fun w => tableColumnTerms.any (fun t => t.data = w)))

/-- Character class of the date separators in the transaction-row date
regex (hyphen, slash, dot). -/
def dateSep (c : Char) : Bool := c = '-' || c = '/' || c = '.'

/-- Anchored date prefix of `is_transaction_line`: regex
whitespace star, 1-2 digits, separator, 1-2 digits, separator,
2-4 digits, checked with `re.match` (anchored at offset 0). -/
def hasDateStart (cs : List Char) : Bool :=
  starK pySpace
    (rangeK Char.isDigit 1 1
      (chK dateSep (rangeK Char.isDigit 1 1 (chK dateSep (rangeK Char.isDigit 2 2 trueK)))))
    cs

/-- Amount pattern digits, comma, 3 digits, dot, 2 digits (searched
anywhere). -/
def amount1 (cs : List Char) : Bool :=
  searchK (plusK Char.isDigit (litK [','] (repK Char.isDigit 3 (litK ['.'] (repK Char.isDigit 2 trueK))))) cs

/-- Amount pattern digits, dot, 2 digits, optional whitespace and
optional cr or dr (searched anywhere; the trailing optional pieces
cannot affect whether a match exists). -/
def amount2 (cs : List Char) : Bool :=
  searchK
    (plusK Char.isDigit
      (litK ['.'] (repK Char.isDigit 2
        (starK pySpace (optK (fun k => fun s => litCIK "cr".data k s || litCIK "dr".data k s) trueK)))))
    cs

/-- Amount pattern cr or dr, optional whitespace, digits, dot, 2 digits
(searched anywhere, case-insensitively). -/
def amount3 (cs : List Char) : Bool :=
  searchK
    (fun s =>
      litCIK "cr".data (starK pySpace (plusK Char.isDigit (litK ['.'] (repK Char.isDigit 2 trueK)))) s ||
      litCIK "dr".data (starK pySpace (plusK Char.isDigit (litK ['.'] (repK Char.isDigit 2 trueK)))) s)
    cs

/-- `is_transaction_line(line)`: lower-cases the line, requires the
anchored date prefix and one of the three amount patterns. -/
def is_transaction_line (line : String) : Bool :=
  let l := lowL line.data
  hasDateStart l && (amount1 l || amount2 l || amount3 l)

/-! ### header_detector.py: name-line detection and cleaning -/

/-- The `name_indicators` list of `is_likely_name_line`
(`header_detector.py` lines 151-168). -/
def nameIndicators : List String :=
  ["NAME OF CUSTOMER", "NAME :", "ACCOUNT NAME :", "M/S.", "M/S",
   "MR.", "MR ", "MS.", "MS "]

/-- `is_likely_name_line(line)`: the stripped, upper-cased line contains
one of the strong name indicators. -/
def is_likely_name_line (line : String) : Bool :=
  let l := upL (stripL line.data)
  nameIndicators.any (fun ind => containsSubL l ind.data)

/-- Prefix of `cs` before the first occurrence of `term`
(Python `cs.split(term)[0]`; the whole list when `term` is absent). -/
def beforeFirst (term : List Char) : List Char → List Char
  | [] => []
  | c :: rest =>
    if term.isPrefixOf (c :: rest) then []
    else c :: beforeFirst term rest

/-- The `cut_terms` list of `clean_name_line`. -/
def cutTerms : List String :=
  ["BRANCH", "ADDRESS", "PHONE", "EMAIL", "ACCOUNT NO", "CUSTOMER ID"]

/-- The known-prefixes list of `clean_name_line`. -/
def namePrefixList : List String :=
  ["NAME OF CUSTOMER", "NAME:", "ACCOUNT NAME :", "M/S.", "M/S",
   "MR.", "MR", "MS.", "MS"]

/-- The `banking_terms` set of `clean_name_line` (and of
`score_potential_name`). -/
def bankingTerms : List String :=
  ["BANK", "STATEMENT", "ACCOUNT", "BRANCH", "IFSC", "CODE", "PERIOD"]

/-- `clean_name_line(line)` (`header_detector.py` lines 170-195): strip;
cut the line at each cut term present in its upper-casing; drop each
known prefix the upper-casing starts with; keep only the words that are
upper-case and not banking terms. -/
def clean_name_line (line : String) : String :=
  let l0 := stripL line.data
  let l1 := cutTerms.foldl
    (fun l t => if containsSubL (upL l) t.data then beforeFirst t.data l else l) l0
  let l2 := namePrefixList.foldl
    (fun l p => if startsWithL (upL l) p.data then stripL (l.drop p.data.length) else l) l1
  let ws := (splitWsL l2).filter
    (fun w => pyIsUpper w && !bankingTerms.any (fun t => t.data = w))
  String.mk (joinSp ws)

/-- `clean_header_line(line)` (`header_detector.py` lines 197-223):
empty for blank lines, table headers and transaction rows; otherwise the
cleaned name line when the line is a likely name line and cleaning
leaves something, else empty. -/
def clean_header_line (line : String) : String :=
  if pyStrip line = "" then ""
  else if is_table_header line || is_transaction_line line then ""
  else if is_likely_name_line line then
    let c := clean_name_line line
    if c ≠ "" then c else ""
  else ""

/-! ### header_detector.py: address lines and address-block removal -/

/-- Regex: word boundary, one of flat, room, shop, optional whitespace,
optional no or number, optional dot, optional whitespace, one or more
digits (address indicator 1); the floor/ground variant is indicator 2. -/
def addrBuildingHD (kw : List String) (prev : Option Char) (cs : List Char) : Bool :=
  wordAltK kw
    (starK pySpace
      (optK (fun k => fun s => litK "no".data k s || litK "number".data k s)
        (optK (litK ['.'])
          (starK pySpace (plusK Char.isDigit trueK)))))
    prev cs

/-- `is_address_line(line)` of `header_detector.py` (lines 95-120): the
ten address-indicator regexes searched over the lower-cased line. -/
def is_address_line_hd (line : String) : Bool :=
  let l := lowL line.data
  searchPrev (addrBuildingHD ["flat", "room", "shop"]) l ||
  searchPrev (addrBuildingHD ["floor", "ground"]) l ||
  searchPrev (wordAltBB ["building", "bldg", "apt", "apartment", "complex"]) l ||
  searchPrev (wordAltBB ["road", "rd", "street", "st", "lane", "ln", "sector",
                         "plot", "highway", "nagar", "colony", "society", "chs", "chsl"]) l ||
  searchPrev (wordAltBB ["near", "opp", "opposite", "behind", "beside", "next to"]) l ||
  searchPrev (wordAltBB ["village", "town", "city", "district", "taluka", "tehsil"]) l ||
  searchPrev (wordAltBB ["maharashtra", "gujarat", "delhi", "mumbai", "thane", "india"]) l ||
  searchPrev (wordAltBB ["east", "west", "north", "south", "central"]) l ||
  searchK (plusK Char.isDigit (litK ['/'] (plusK (fun c => c.isAlpha || c.isDigit || c = '-') trueK))) l ||
  searchK (repK Char.isDigit 6 trueK) l

/-- `remove_address_block(lines)` of `header_detector.py` (lines
122-149), with its `skip_mode` / `address_line_count` state machine:
address lines are never appended; once two address lines accumulate,
skip mode begins and ends at the next non-address line. -/
def removeAddressBlockHDGo (skipMode : Bool) (count : Nat) : List String → List String
  | [] => []
  | l :: ls =>
    if is_address_line_hd l then
      removeAddressBlockHDGo (skipMode || decide (count + 1 ≥ 2)) (count + 1) ls
    else
      if skipMode then l :: removeAddressBlockHDGo false 0 ls
      else l :: removeAddressBlockHDGo skipMode count ls

/-- `remove_address_block` entry point of `header_detector.py`. -/
def remove_address_block_hd (lines : List String) : List String :=
  removeAddressBlockHDGo false 0 lines

/-! ### header_detector.py: detect_header_section -/

/-- The loop of `detect_header_section` (`header_detector.py` lines
254-269): at index `i`, a line satisfying `is_table_header`, or
`is_transaction_line` when `i > 0`, starts the table; every later line
goes to the table part; earlier lines contribute their
`clean_header_line` cleaning (non-empty results only) to the header. -/
def detectGo (i : Nat) : List String → (List String × List String)
  | [] => ([], [])
  | l :: ls =>
    if is_table_header l || (decide (i > 0) && is_transaction_line l) then
      ([], l :: ls)
    else
      let r := detectGo (i + 1) ls
      (if clean_header_line l = "" then r.1 else clean_header_line l :: r.1, r.2)

/-- Split a text into stripped non-empty lines
(`[line.strip() for line in text.split('\n') if line.strip()]`). -/
def splitStripNonempty (text : String) : List String :=
  ((pySplitNl text).map pyStrip).filter (fun l => l ≠ "")

/-- `detect_header_section(text)` (`header_detector.py` lines 239-274):
empty for empty text; otherwise runs the segmentation loop over the
stripped non-empty lines and removes address blocks from the header
part. -/
def detect_header_section (text : String) : List String × List String :=
  if text = "" then ([], [])
  else
    let r := detectGo 0 (splitStripNonempty text)
    (remove_address_block_hd r.1, r.2)

/-! ### pdf_header_analyzer.py: stage-0 segmentation of analyze_pdf -/

/-- Stage 0 of `PDFHeaderAnalyzer.analyze_pdf` (`pdf_header_analyzer.py`
lines 557-570): strip each line, skip empties, stop at the first line
satisfying `is_table_header` or `is_transaction_line` (no index guard),
and collect every earlier stripped line. -/
def stage0Go : List String → List String
  | [] => []
  | l :: ls =>
    let s := pyStrip l
    if s = "" then stage0Go ls
    else if is_table_header s || is_transaction_line s then []
    else s :: stage0Go ls

/-- Stage-0 header lines of `analyze_pdf` for a whole text. -/
def stage0Headers (text : String) : List String :=
  stage0Go (pySplitNl text)

/-! ### pdf_header_analyzer.py: PDFHeaderAnalyzer address detection -/

/-- `self.address_triggers` (`pdf_header_analyzer.py` lines 39-50). -/
def addressTriggers : List String :=
  ["address", "communication address", "branch address", "address line 1",
   "address line 2", "address line 3", "registered address",
   "correspondence address", "customer address", "address of customer"]

/-- `self.indian_states` (`pdf_header_analyzer.py` lines 85-124),
lower-cased once since every use compares `state.lower()`. -/
def indianStates : List String :=
  ["andhra pradesh", "arunachal pradesh", "assam", "bihar", "chhattisgarh",
   "goa", "gujarat", "haryana", "himachal pradesh", "jharkhand", "karnataka",
   "kerala", "madhya pradesh", "maharashtra", "manipur", "meghalaya",
   "mizoram", "nagaland", "odisha", "punjab", "rajasthan", "sikkim",
   "tamil nadu", "telangana", "tripura", "uttar pradesh", "uttarakhand",
   "west bengal", "delhi", "puducherry", "chandigarh", "andaman and nicobar",
   "dadra and nagar haveli", "daman and diu", "jammu and kashmir", "ladakh",
   "lakshadweep"]

/-- Character class of address content marker 1: lower-case letter,
digit, slash or hyphen. -/
def addrTail1 (c : Char) : Bool := c.isLower || c.isDigit || c = '/' || c = '-'

/-- Character class `[a-z0-9-]` of address content marker 2. -/
def addrTail2 (c : Char) : Bool := c.isLower || c.isDigit || c = '-'

/-- Address content markers 1 and 2: word boundary, keyword, optional
whitespace, optional no or number, optional dot, optional whitespace,
then one or more tail-class characters. -/
def addrBuildingPA (kw : List String) (tail : Char → Bool) (prev : Option Char) (cs : List Char) : Bool :=
  wordAltK kw
    (starK pySpace
      (optK (fun k => fun s => litK "no".data k s || litK "number".data k s)
        (optK (litK ['.'])
          (starK pySpace (plusK tail trueK)))))
    prev cs

/-- Address content marker 4: word boundary, sector or phase or block,
optional whitespace, optional hyphen or colon, optional whitespace, one
or more `[a-z0-9]`. -/
def addrSectorPA (prev : Option Char) (cs : List Char) : Bool :=
  wordAltK ["sector", "phase", "block"]
    (starK pySpace
      (optK (chK (fun c => c = '-' || c = ':'))
        (starK pySpace (plusK (fun c => c.isLower || c.isDigit) trueK))))
    prev cs

/-- Address content marker 8: word boundary, direction word, one or more
whitespace, one or more `[a-z]`, word boundary. -/
def addrDirectionPA (prev : Option Char) (cs : List Char) : Bool :=
  wordAltK ["east", "west", "north", "south", "central"]
    (plusK pySpace (plusK Char.isLower (fun rest => boundaryAfter rest)))
    prev cs

/-- Address content marker 9: word boundary, zone kind, one or more
whitespace, then area or zone or estate, then a word boundary. -/
def addrZonePA (prev : Option Char) (cs : List Char) : Bool :=
  wordAltK ["industrial", "midc", "commercial", "residential"]
    (plusK pySpace
      (fun s => litK "area".data (fun rest => boundaryAfter rest) s ||
                litK "zone".data (fun rest => boundaryAfter rest) s ||
                litK "estate".data (fun rest => boundaryAfter rest) s))
    prev cs

/-- Bounded 6-digit PIN: word boundary, exactly 6 digits, word
boundary. -/
def pinBB (prev : Option Char) (cs : List Char) : Bool :=
  boundaryBefore prev && repK Char.isDigit 6 (fun rest => boundaryAfter rest) cs

/-- Address content marker 11: word boundary, pin, optional whitespace,
optional code, optional colon/dot/hyphen, optional whitespace, 6 digits,
word boundary. -/
def addrPinPA (prev : Option Char) (cs : List Char) : Bool :=
  wordAltK ["pin"]
    (starK pySpace
      (optK (litK "code".data)
        (optK (chK (fun c => c = ':' || c = '.' || c = '-'))
          (starK pySpace (repK Char.isDigit 6 (fun rest => boundaryAfter rest))))))
    prev cs

/-- `any(re.search(pattern, line) for pattern in
self.address_content_markers)` on the lower-cased stripped line. -/
def addressContentMarkersHit (l : List Char) : Bool :=
  searchPrev (addrBuildingPA ["flat", "room", "shop", "gala", "plot"] addrTail1) l ||
  searchPrev (addrBuildingPA ["floor", "ground"] addrTail2) l ||
  searchPrev (wordAltBB ["building", "bldg", "tower", "wing", "complex",
                         "plaza", "arcade", "chawl", "society", "chs"]) l ||
  searchPrev addrSectorPA l ||
  searchPrev (wordAltBB ["near", "opp", "opposite", "behind", "beside", "next to"]) l ||
  searchPrev (wordAltBB ["road", "rd", "street", "st", "lane", "ln", "marg", "highway"]) l ||
  searchPrev (wordAltBB ["nagar", "colony", "society", "chs", "chsl",
                         "apartment", "premises"]) l ||
  searchPrev addrDirectionPA l ||
  searchPrev addrZonePA l ||
  searchPrev pinBB l ||
  searchPrev addrPinPA l

/-- A literal city/region word followed, anywhere later, by a pattern:
used for the dot-star chained `address_line_patterns`. -/
def wordThenLater (alts : List String) (later : List Char → Bool) (cs : List Char) : Bool :=
  searchK (fun s => alts.any (fun a => litK a.data later s)) cs

/-- `self.address_line_patterns` (`pdf_header_analyzer.py` lines
166-173), searched case-insensitively on the already lower-cased
line. -/
def addressLinePatternsHit (l : List Char) : Bool :=
  wordThenLater ["mumbai", "thane", "pune", "delhi", "bangalore"]
    (fun rest => searchK (repK Char.isDigit 6 trueK) rest) l ||
  wordThenLater ["maharashtra", "gujarat", "delhi", "karnataka"]
    (fun rest => searchK
      (fun s => litK ['-'] (litK "india".data trueK) s ||
                litK [','] (litK "india".data trueK) s ||
                plusK pySpace (litK "india".data trueK) s) rest) l ||
  searchPrev (wordAltK ["room", "flat", "shop"]
    (starK pySpace (litK "no".data (fun rest => boundaryAfter rest)))) l ||
  searchPrev (wordAltBB ["near", "opp", "behind"]) l ||
  searchPrev (fun prev cs =>
    boundaryBefore prev &&
      ["road", "street", "lane", "nagar"].any (fun a =>
        litK a.data
          (fun rest => boundaryAfter rest && searchK (repK Char.isDigit 6 trueK) rest) cs)) l ||
  searchPrev (wordAltK ["branch", "communication"]
    (starK pySpace (litK "address".data (fun rest => boundaryAfter rest)))) l

/-- `PDFHeaderAnalyzer.is_address_line(line)` (`pdf_header_analyzer.py`
lines 311-338): lower-cased stripped line; state-name substring, content
markers, additional line patterns, the city-then-state combination, or a
bounded 6-digit PIN. -/
def is_address_line_pa (line : String) : Bool :=
  let l := lowL (stripL line.data)
  indianStates.any (fun st => containsSubL l st.data) ||
  addressContentMarkersHit l ||
  addressLinePatternsHit l ||
  wordThenLater ["mumbai", "thane", "pune"]
    (fun rest => searchK
      (fun s => ["maharashtra", "gujarat", "delhi"].any (fun a => litK a.data trueK s)) rest) l ||
  searchPrev pinBB l

/-- `is_trigger` of `find_address_block`: some address trigger is a
substring of the lower-cased stripped line. -/
def is_address_trigger_pa (line : String) : Bool :=
  let l := lowL (stripL line.data)
  addressTriggers.any (fun t => containsSubL l t.data)

/-- One step state of `find_address_block`. -/
structure FabState where
  startIdx : Int
  endIdx : Int
  inBlock : Bool
  consec : Nat
  deriving Repr, DecidableEq

/-- The loop of `PDFHeaderAnalyzer.find_address_block`
(`pdf_header_analyzer.py` lines 340-372); `i` is the current index.  On
an address/trigger line the block opens or extends; on any other line
the loop breaks if at least two consecutive address lines were seen,
else the state resets. -/
def fabGo (st : FabState) (i : Nat) : List String → Int × Int
  | [] => (st.startIdx, st.endIdx)
  | l :: ls =>
    if is_address_trigger_pa l || is_address_line_pa l then
      let s' : Int := if st.inBlock then st.startIdx else (i : Int)
      fabGo ⟨s', (i : Int), true, st.consec + 1⟩ (i + 1) ls
    else
      if st.inBlock then
        if st.consec ≥ 2 then (st.startIdx, st.endIdx)
        else fabGo ⟨-1, -1, false, 0⟩ (i + 1) ls
      else fabGo ⟨st.startIdx, st.endIdx, false, 0⟩ (i + 1) ls

/-- `find_address_block(lines)`. -/
def find_address_block (lines : List String) : Int × Int :=
  fabGo ⟨-1, -1, false, 0⟩ 0 lines

/-- `PDFHeaderAnalyzer.remove_address_block(lines)`
(`pdf_header_analyzer.py` lines 374-386): excise
`lines[start : end + 1]` when a block was found. -/
def remove_address_block_pa (lines : List String) : List String :=
  if lines.isEmpty then lines
  else
    let r := find_address_block lines
    if r.1 ≠ -1 && r.2 ≠ -1 then
      lines.take r.1.toNat ++ lines.drop (r.2.toNat + 1)
    else lines

/-! ### pdf_header_analyzer.py: clean_header_content

`self.remove_patterns` (lines 260-272) is an ordered list of eleven
regexes, each applied by `re.sub(pattern, " ", working_line)`
cumulatively.  Every substitution below scans left to right exactly as
`re.sub` does: it finds each leftmost match, emits a single space for
it, and resumes scanning after the matched span (word-boundary tests
keep looking at the original characters). -/

/-- Separator class of removal pattern 1 (slash or hyphen). -/
def sepDH (c : Char) : Bool := c = '/' || c = '-'

/-- Leftmost match length of pattern digits-plus, separator, digits-plus,
separator, digits-plus at this offset: each digit group is a maximal run
(shortening a run can never make the following separator match). -/
def tryDatePat (cs : List Char) : Option Nat :=
  let r1 := cs.takeWhile Char.isDigit
  if r1.isEmpty then none
  else
    match cs.drop r1.length with
    | c :: rest1 =>
      if sepDH c then
        let r2 := rest1.takeWhile Char.isDigit
        if r2.isEmpty then none
        else
          match rest1.drop r2.length with
          | d :: rest2 =>
            if sepDH d then
              let r3 := rest2.takeWhile Char.isDigit
              if r3.isEmpty then none
              else some (r1.length + 1 + r2.length + 1 + r3.length)
            else none
          | [] => none
      else none
    | [] => none

/-- Scanner for removal pattern 1 (fuel bounds the number of consumed
characters; every step consumes at least one). -/
def subDateGo : Nat → List Char → List Char
  | 0, cs => cs
  | _ + 1, [] => []
  | f + 1, c :: rest =>
    match tryDatePat (c :: rest) with
    | some n => ' ' :: subDateGo f ((c :: rest).drop n)
    | none => c :: subDateGo f rest

/-- `re.sub` of removal pattern 1 (dates like digit runs separated by
slash or hyphen). -/
def subDatePat (cs : List Char) : List Char := subDateGo cs.length cs

/-- Shared scanner for the bounded-run removal patterns 2, 3, 4 and 5: a
maximal run of `inCls` characters that starts at a word boundary is
replaced by one space when the following character is also a non-word
character (or the input ends) and the run length satisfies `lenP`;
`acc` is the pending run reversed, `pw` records whether the previous
original character was a word character. -/
def subRunGo (inCls : Char → Bool) (lenP : Nat → Bool) (acc : List Char) (pw : Bool) :
    List Char → List Char
  | [] => if acc.isEmpty then [] else if lenP acc.length then [' '] else acc.reverse
  | c :: rest =>
    if !acc.isEmpty then
      if inCls c then subRunGo inCls lenP (c :: acc) pw rest
      else if !isWordChar c && lenP acc.length then
        ' ' :: c :: subRunGo inCls lenP [] (isWordChar c) rest
      else acc.reverse ++ c :: subRunGo inCls lenP [] (isWordChar c) rest
    else
      if inCls c && !pw then subRunGo inCls lenP [c] pw rest
      else c :: subRunGo inCls lenP [] (isWordChar c) rest

/-- `re.sub` of removal pattern 2: bounded digit runs of length exactly
6 (PIN codes). -/
def subPin6 (cs : List Char) : List Char :=
  subRunGo Char.isDigit (fun n => n = 6) [] false cs

/-- `re.sub` of removal pattern 3: bounded digit runs of length at least
10 (account and phone numbers). -/
def subLong10 (cs : List Char) : List Char :=
  subRunGo Char.isDigit (fun n => n ≥ 10) [] false cs

/-- `re.sub` of removal pattern 4: any bounded digit run. -/
def subAnyNum (cs : List Char) : List Char :=
  subRunGo Char.isDigit (fun n => n ≥ 1) [] false cs

/-- `re.sub` of removal pattern 5: bounded runs of upper-case letters
and digits of length at least 8 (IFSC-style codes). -/
def subCaps8 (cs : List Char) : List Char :=
  subRunGo (fun c => c.isUpper || c.isDigit) (fun n => n ≥ 8) [] false cs

/-- Match test of removal pattern 6 at this offset: exactly 4 upper-case
letters, then 7 digits, then a word boundary. -/
def tryCode (cs : List Char) : Bool :=
  ((cs.take 4).length = 4 && (cs.take 4).all Char.isUpper) &&
  (((cs.drop 4).take 7).length = 7 && ((cs.drop 4).take 7).all Char.isDigit) &&
  boundaryAfter (cs.drop 11)

/-- Scanner for removal pattern 6 (`pw` is the word-character status of
the previous original character, giving the leading word boundary). -/
def subCodeGo : Nat → Bool → List Char → List Char
  | 0, _, cs => cs
  | _ + 1, _, [] => []
  | f + 1, pw, c :: rest =>
    if !pw && tryCode (c :: rest) then ' ' :: subCodeGo f true ((c :: rest).drop 11)
    else c :: subCodeGo f (isWordChar c) rest

/-- `re.sub` of removal pattern 6. -/
def subCode (cs : List Char) : List Char := subCodeGo cs.length false cs

/-- `re.sub` of removal pattern 7 (`branch` followed by anything to end
of line, case-sensitively lower-case as written in the source). -/
def subBranchLower (cs : List Char) : List Char :=
  if containsSubL cs "branch".data then beforeFirst "branch".data cs ++ [' ']
  else cs

/-- `re.sub` of removal patterns 8 and 9: the character `t` together
with the following run of non-`t` characters becomes one space
(`inM` records that the scanner is inside such a span). -/
def subAfterCh (t : Char) : Bool → List Char → List Char
  | _, [] => []
  | inM, c :: rest =>
    if c = t then ' ' :: subAfterCh t true rest
    else if inM then subAfterCh t true rest
    else c :: subAfterCh t false rest

/-- `re.sub` of removal pattern 10: each parenthesis, comma or dot
becomes a space. -/
def subPunct (cs : List Char) : List Char :=
  cs.map (fun c => if c = '(' || c = ')' || c = ',' || c = '.' then ' ' else c)

/-- `re.sub` of removal pattern 11: each whitespace run becomes one
space. -/
def subWsRuns : Bool → List Char → List Char
  | _, [] => []
  | inSp, c :: rest =>
    if pySpace c then
      if inSp then subWsRuns true rest else ' ' :: subWsRuns true rest
    else c :: subWsRuns false rest

/-- The eleven removal patterns applied in source order. -/
def applyRemovePatterns (cs : List Char) : List Char :=
  subWsRuns false
    (subPunct
      (subAfterCh '-' false
        (subAfterCh ':' false
          (subBranchLower
            (subCode
              (subCaps8
                (subAnyNum
                  (subLong10
                    (subPin6
                      (subDatePat cs))))))))))

/-- `self.banned_words` (`pdf_header_analyzer.py` lines 204-241). -/
def bannedWords : List String :=
  ["account", "statement", "date", "currency", "type", "no", "number",
   "nominee", "registered", "ifsc", "micr", "code", "phone", "branch",
   "base", "mobile", "email", "id", "cif", "customer", "period", "status",
   "active", "balance", "inr", "savings", "current", "joint", "holder",
   "scheme", "banking", "smart", "details", "address", "gstin", "sac"]

/-- Count of characters matched by the class digit, slash, hyphen
(the `re.findall` of the ratio check). -/
def countNSD (cs : List Char) : Nat :=
  cs.countP (fun c => c.isDigit || c = '/' || c = '-')

/-- The ratio check of `clean_header_content`: skip the line when the
count of digit/slash/hyphen characters strictly exceeds a third of its
length. -/
def ratioSkip (line : String) : Bool :=
  decide (3 * countNSD line.data > line.data.length)

/-- Every character is whitespace or a non-word character (the final
reject regex of `clean_header_content`, anchored over the whole stripped
line). -/
def allSpaceOrNonWord (cs : List Char) : Bool :=
  cs.all (fun c => pySpace c || !isWordChar c)

/-- Loop body of `clean_header_content` after its two skip guards:
apply the removal patterns, drop banned words, re-join, and keep the
result only if its strip is non-empty and not all
whitespace/non-word. -/
def processLineRest (l : String) : Option String :=
  let w := applyRemovePatterns l.data
  let ws := (splitWsL w).filter (fun wd => !bannedWords.any (fun b => b.data = lowL wd))
  let j1 := joinSp ws
  let j2 := joinSp (splitWsL j1)
  if (stripL j2).isEmpty then none
  else if allSpaceOrNonWord (stripL j2) then none
  else some (String.mk j2)

/-- Loop body of `clean_header_content` without the ratio check (what a
retained line goes through). -/
def processLine (l : String) : Option String :=
  if (stripL l.data).isEmpty then none else processLineRest l

/-- Full loop body of `clean_header_content`
(`pdf_header_analyzer.py` lines 437-471). -/
def cleanLineFull (l : String) : Option String :=
  if (stripL l.data).isEmpty then none
  else if ratioSkip l then none
  else processLineRest l

/-- `PDFHeaderAnalyzer.clean_header_content(lines)`. -/
def clean_header_content (lines : List String) : List String :=
  lines.filterMap cleanLineFull

/-! ### pdf_header_analyzer.py: extract_name_from_pattern -/

/-- Case-insensitive prefix test (pattern text given lower-case). -/
def ciIsPrefix : List Char → List Char → Bool
  | [], _ => true
  | _ :: _, [] => false
  | c :: ws, d :: rest => lowChar d = c && ciIsPrefix ws rest

/-- Length of the leading whitespace run. -/
def wsRunLen (cs : List Char) : Nat := (cs.takeWhile pySpace).length

/-- Greedy match of an optional literal character (case-insensitive)
followed by one-or-more whitespace, returning the consumed length: the
optional character is taken when present, but only the whitespace is
mandatory. -/
def optChWs (oc : Char) (cs : List Char) : Option Nat :=
  match cs with
  | c :: rest =>
    if lowChar c = oc then
      let r := wsRunLen rest
      if r ≥ 1 then some (1 + r) else none
    else
      let r := wsRunLen cs
      if r ≥ 1 then some r else none
  | [] => none

/-- Greedy match of one-or-more whitespace, returning the consumed
length. -/
def wsPlusLen (cs : List Char) : Option Nat :=
  let r := wsRunLen cs
  if r ≥ 1 then some r else none

/-- Matcher for the title patterns of shape word boundary, alternation
of literal title words (tried in order), then a tail matcher such as
optional dot plus whitespace.  Returns the consumed length of the
leftmost-alternative greedy match at this offset. -/
def titleAltMatch (alts : List String) (tail : List Char → Option Nat)
    (prev : Option Char) (cs : List Char) : Option Nat :=
  if boundaryBefore prev then
    (alts.map (fun a =>
      if ciIsPrefix a.data cs then
        (tail (cs.drop a.data.length)).map (fun n => a.data.length + n)
      else none)).foldl (fun acc r => acc.orElse (fun _ => r)) none
  else none

/-- Match of `name`, whitespace, `of`, whitespace, `customer`
(case-insensitive) at this offset, returning the consumed length; each
inner whitespace run is maximal since the following literal begins with
a non-space character. -/
def labelNameOfCustomer (cs : List Char) : Option Nat :=
  if ciIsPrefix "name".data cs then
    let r1 := wsRunLen (cs.drop 4)
    if r1 ≥ 1 && ciIsPrefix "of".data (cs.drop (4 + r1)) then
      let r2 := wsRunLen (cs.drop (4 + r1 + 2))
      if r2 ≥ 1 && ciIsPrefix "customer".data (cs.drop (4 + r1 + 2 + r2)) then
        some (4 + r1 + 2 + r2 + 8)
      else none
    else none
  else none

/-- Match of `customer`, whitespace, `name` (case-insensitive) at this
offset, returning the consumed length. -/
def labelCustomerName (cs : List Char) : Option Nat :=
  if ciIsPrefix "customer".data cs then
    let r1 := wsRunLen (cs.drop 8)
    if r1 ≥ 1 && ciIsPrefix "name".data (cs.drop (8 + r1)) then
      some (8 + r1 + 4)
    else none
  else none

/-- Length of the leading run of colon-or-whitespace characters. -/
def colonWsRunLen (cs : List Char) : Nat :=
  (cs.takeWhile (fun c => c = ':' || pySpace c)).length

/-- Matcher for title pattern 8: word boundary, `name of customer` or
`customer name`, then one-or-more colon/whitespace characters
(greedy). -/
def titleNameLabelMatch (prev : Option Char) (cs : List Char) : Option Nat :=
  if boundaryBefore prev then
    match (labelNameOfCustomer cs).orElse (fun _ => labelCustomerName cs) with
    | some n =>
      let r := colonWsRunLen (cs.drop n)
      if r ≥ 1 then some (n + r) else none
    | none => none
  else none

/-- Leftmost match of a positional matcher: scans offsets in order and
returns the first (start, end) pair. -/
def ffmGo (pat : Option Char → List Char → Option Nat) (i : Nat) (prev : Option Char) :
    List Char → Option (Nat × Nat)
  | [] => (pat prev []).map (fun n => (i, i + n))
  | c :: rest =>
    match pat prev (c :: rest) with
    | some n => some (i, i + n)
    | none => ffmGo pat (i + 1) (some c) rest

/-- `re.search` returning the span of the leftmost match. -/
def findFirstMatch (pat : Option Char → List Char → Option Nat) (cs : List Char) :
    Option (Nat × Nat) :=
  ffmGo pat 0 none cs

/-- One title pattern of `extract_name_from_pattern`: its regex source
text (used verbatim by the source in a substring test) and its
matcher. -/
structure TitlePattern where
  src : String
  matcher : Option Char → List Char → Option Nat

/-- `title_patterns` of `extract_name_from_pattern`
(`pdf_header_analyzer.py` lines 479-488), in source order. -/
def titlePatterns : List TitlePattern :=
  [⟨"\\b(?:mr|mrs|ms|dr)\\.?\\s+", titleAltMatch ["mr", "mrs", "ms", "dr"] (optChWs '.')⟩,
   ⟨"\\bm/s\\.?\\s+", titleAltMatch ["m/s"] (optChWs '.')⟩,
   ⟨"\\bshri\\s+", titleAltMatch ["shri"] wsPlusLen⟩,
   ⟨"\\bsmt\\.?\\s+", titleAltMatch ["smt"] (optChWs '.')⟩,
   ⟨"\\bkumar[i]?\\s+", titleAltMatch ["kumar"] (optChWs 'i')⟩,
   ⟨"\\bsri\\s+", titleAltMatch ["sri"] wsPlusLen⟩,
   ⟨"\\bmiss\\s+", titleAltMatch ["miss"] wsPlusLen⟩,
   ⟨"\\b(?:name\\s+of\\s+customer|customer\\s+name)[:\\s]+", titleNameLabelMatch⟩]

/-- Lower-case a string. -/
def lowerStr (s : String) : String := String.mk (lowL s.data)

/-- The per-word acceptance condition of the caps-word collection loop:
for the name-label pattern, the word matches upper-then-alpha or is
upper-case; otherwise it must be upper-case and longer than one
character. -/
def capsCond (nameLabel : Bool) (w : List Char) : Bool :=
  if nameLabel then
    (match w with
     | c :: rest => c.isUpper && rest.all Char.isAlpha
     | [] => false) || pyIsUpper w
  else pyIsUpper w && decide (w.length > 1)

/-- Collect words while the acceptance condition holds (the loop breaks
at the first failing word). -/
def collectCaps (nl : Bool) : List (List Char) → List (List Char)
  | [] => []
  | w :: ws => if capsCond nl w then w :: collectCaps nl ws else []

/-- Iteration of `extract_name_from_pattern` over the title patterns:
on a match, collect caps words from the text after the match; with at
least two caps words return the title (the stripped matched span,
included in the name by the source) joined with the caps words, plus the
entity type; otherwise continue with the next pattern. -/
def enfpGo (cs : List Char) : List TitlePattern → String × String
  | [] => ("", "")
  | p :: ps =>
    match findFirstMatch p.matcher cs with
    | none => enfpGo cs ps
    | some (s, e) =>
      let remaining := cs.drop e
      let title := stripL ((cs.drop s).take (e - s))
      let nameLabel :=
        strContains (lowerStr p.src) "name of customer" ||
        strContains (lowerStr p.src) "customer name"
      let capsWords := collectCaps nameLabel (splitWsL remaining)
      if capsWords.length ≥ 2 then
        let name := String.mk (title ++ ' ' :: joinSp capsWords)
        let entity := if containsSubL (lowL title) "m/s".data then "company" else "individual"
        (name, entity)
      else enfpGo cs ps

/-- `PDFHeaderAnalyzer.extract_name_from_pattern(line)`
(`pdf_header_analyzer.py` lines 473-527). -/
def extract_name_from_pattern (line : String) : String × String :=
  enfpGo line.data titlePatterns

/-! ### header_data_filter.py: extract_account_number

The three labeled account patterns contain only dots (which never match
a newline), so a match is always confined to one line of the text; the
leftmost match therefore lives on the first line that admits one.  The
lazy and greedy sub-pattern choices are resolved exactly as Python's
engine resolves them (see the doc comments below). -/

/-- Character of `l` at index `i`. -/
def charAt? (l : List Char) (i : Nat) : Option Char := (l.drop i).head?

/-- Word-boundary test before index `i` of `l`. -/
def boundaryBeforeAt (l : List Char) (i : Nat) : Bool :=
  match i with
  | 0 => true
  | j + 1 =>
    match charAt? l j with
    | some c => !isWordChar c
    | none => true

/-- Length of the digit run starting at index `i`. -/
def runLenAt (l : List Char) (i : Nat) : Nat :=
  ((l.drop i).takeWhile Char.isDigit).length

/-- All indices at which `needle` occurs case-insensitively in `l`, in
order. -/
def findAllCI (needle : List Char) (l : List Char) : List Nat :=
  (List.range (l.length + 1)).filter (fun i => ciIsPrefix needle (l.drop i))

/-- Earliest position at or after `start` where the lazy
`(?:no|number|#)` alternation matches, with the width of the first
alternative matching there (`no`, `number` and `#` are pairwise
exclusive at a given position).  Returns position and consumed
width. -/
def firstNoNumHash (l : List Char) (start : Nat) : Option (Nat × Nat) :=
  ((List.range (l.length + 1)).find? (fun i =>
      start ≤ i &&
        (ciIsPrefix "no".data (l.drop i) || ciIsPrefix "number".data (l.drop i) ||
          charAt? l i = some '#'))).map
    (fun i =>
      if ciIsPrefix "no".data (l.drop i) then (i, 2)
      else if ciIsPrefix "number".data (l.drop i) then (i, 6)
      else (i, 1))

/-- Earliest position at or after `start` from which at least 10
consecutive digits start (the lazy dot-star followed by the greedy
10-plus digit group). -/
def firstRun10 (l : List Char) (start : Nat) : Option Nat :=
  (List.range (l.length + 1)).find? (fun i => start ≤ i && runLenAt l i ≥ 10)

/-- Whether account pattern 1 can complete after an `account` occurrence
ending at `q7`. -/
def pat1TailOk (l : List Char) (q7 : Nat) : Bool :=
  match firstNoNumHash l q7 with
  | some (r, w) => (firstRun10 l (r + w)).isSome
  | none => false

/-- Account pattern 1, `(?i).*account.*?(?:no|number|#).*?(\d{10,})`, on
a single line: the leading greedy dot-star anchors the match at the line
start and selects the last `account` occurrence that still admits the
rest; the lazy pieces pick the earliest label and the earliest 10-digit
run after it; the digit group is the maximal run there.  Returns
(group 1, group 0). -/
def pat1Line (l : List Char) : Option (List Char × List Char) :=
  match ((findAllCI "account".data l).filter (fun q => pat1TailOk l (q + 7))).getLast? with
  | none => none
  | some q =>
    match firstNoNumHash l (q + 7) with
    | some (r, w) =>
      match firstRun10 l (r + w) with
      | some t =>
        let len := runLenAt l t
        some ((l.drop t).take len, l.take (t + len))
      | none => none
    | none => none

/-- Whether the shared tail `.*?(?:no|number|#).*?(\d{10,})` of account
pattern 2 completes after position `s`, and the resulting group span. -/
def labelTail (l : List Char) (s : Nat) : Option (Nat × Nat) :=
  match firstNoNumHash l s with
  | some (r, w) =>
    match firstRun10 l (r + w) with
    | some t => some (t, runLenAt l t)
    | none => none
  | none => none

/-- Account pattern 2, `(?i)a/c.*?(?:no|number|#).*?(\d{10,})`, on a
single line: the match starts at the first `a/c` occurrence that admits
the rest.  Returns (group 1, group 0). -/
def pat2Line (l : List Char) : Option (List Char × List Char) :=
  match (findAllCI "a/c".data l).find? (fun q => (labelTail l (q + 3)).isSome) with
  | none => none
  | some q =>
    match labelTail l (q + 3) with
    | some (t, len) => some ((l.drop t).take len, ((l.drop q).take (t + len - q)))
    | none => none

/-- Tail of account pattern 3 after the `acc` alternative: lazy dot-star
to the earliest colon at or after `s`, lazy dot-star to the earliest
10-digit run, which is taken maximally. -/
def pat3Tail (l : List Char) (s : Nat) : Option (Nat × Nat) :=
  match (List.range (l.length + 1)).find? (fun i => s ≤ i && charAt? l i = some ':') with
  | some r =>
    match firstRun10 l (r + 1) with
    | some t => some (t, runLenAt l t)
    | none => none
  | none => none

/-- Account pattern 3, `(?i)(?:acc|account).*?:.*?(\d{10,})`, on a
single line: the alternative `acc` is tried first and `account` begins
with `acc`, so the match starts at the first `acc` occurrence admitting
the rest, consuming 3 characters.  Returns (group 1, group 0). -/
def pat3Line (l : List Char) : Option (List Char × List Char) :=
  match (findAllCI "acc".data l).find? (fun q => (pat3Tail l (q + 3)).isSome) with
  | none => none
  | some q =>
    match pat3Tail l (q + 3) with
    | some (t, len) => some ((l.drop t).take len, ((l.drop q).take (t + len - q)))
    | none => none

/-- Search a per-line pattern over the lines of the text in order,
returning (group 1, group 0) of the first line that matches. -/
def searchLines (f : List Char → Option (List Char × List Char)) :
    List String → Option (String × String)
  | [] => none
  | l :: ls =>
    match f l.data with
    | some r => some (String.mk r.1, String.mk r.2)
    | none => searchLines f ls

/-- The transaction vocabulary of the fallback scan of
`extract_account_number`
(regex `(?i)(balance|credit|debit|amount|date|transaction)`). -/
def transVocab : List String :=
  ["balance", "credit", "debit", "amount", "date", "transaction"]

/-- Whether a line contains any transaction-vocabulary word
(case-insensitive substring). -/
def hasTransVocab (l : List Char) : Bool :=
  transVocab.any (fun w => containsSubCI l w.data)

/-- Leftmost standalone 10-plus digit run of a line
(regex `\b(\d{10,})\b`): a maximal digit run of length at least 10 with
non-word characters (or the string ends) on both sides. -/
def standaloneRun10 (l : List Char) : Option (List Char) :=
  ((List.range (l.length + 1)).find? (fun i =>
      boundaryBeforeAt l i && runLenAt l i ≥ 10 &&
        boundaryAfter (l.drop (i + runLenAt l i)))).map
    (fun i => (l.drop i).take (runLenAt l i))

/-- The fallback loop of `extract_account_number`: the first line
without transaction vocabulary that carries a standalone 10-plus digit
run yields that run and the line. -/
def acctFallback : List String → Option String × Option String
  | [] => (none, none)
  | l :: ls =>
    if !hasTransVocab l.data then
      match standaloneRun10 l.data with
      | some d => (some (String.mk d), some l)
      | none => acctFallback ls
    else acctFallback ls

/-- `extract_account_number(text)` (`header_data_filter.py` lines
143-168): the three labeled patterns in order over the whole text, then
the per-line fallback; `(None, None)` when nothing matches. -/
def extract_account_number (text : String) : Option String × Option String :=
  let lines := pySplitNl text
  match searchLines pat1Line lines with
  | some r => (some r.1, some r.2)
  | none =>
    match searchLines pat2Line lines with
    | some r => (some r.1, some r.2)
    | none =>
      match searchLines pat3Line lines with
      | some r => (some r.1, some r.2)
      | none => acctFallback lines

/-! ### header_data_filter.py: clean_extracted_name -/

/-- First `some` produced by `f` over a list. -/
def listFirstSome (xs : List α) (f : α → Option β) : Option β :=
  xs.findSome? f

/-- End offset after the optional-prefix regex `YOUR`, whitespace,
`DETAILS?`, whitespace, optional `WITH` plus whitespace, optional `US`
or `ARE`, then one-or-more colon/whitespace — matched at the head of
`cs`, case-insensitively, greedy pieces tried first. -/
def yourDetailsLen (cs : List Char) : Option Nat :=
  if ciIsPrefix "your".data cs then
    let i1 := 4 + wsRunLen (cs.drop 4)
    if wsRunLen (cs.drop 4) ≥ 1 && ciIsPrefix "detail".data (cs.drop i1) then
      let i2 := i1 + 6
      let sCands := if ciIsPrefix "s".data (cs.drop i2) then [i2 + 1, i2] else [i2]
      listFirstSome sCands (fun i3 =>
        let r := wsRunLen (cs.drop i3)
        if r ≥ 1 then
          let i4 := i3 + r
          let wCands :=
            if ciIsPrefix "with".data (cs.drop i4) && wsRunLen (cs.drop (i4 + 4)) ≥ 1 then
              [i4 + 4 + wsRunLen (cs.drop (i4 + 4)), i4]
            else [i4]
          listFirstSome wCands (fun i5 =>
            let uCands :=
              (if ciIsPrefix "us".data (cs.drop i5) then [i5 + 2] else []) ++
              (if ciIsPrefix "are".data (cs.drop i5) then [i5 + 3] else []) ++ [i5]
            listFirstSome uCands (fun i6 =>
              let r2 := colonWsRunLen (cs.drop i6)
              if r2 ≥ 1 then some (i6 + r2) else none))
        else none)
    else none
  else none

/-- End offset after the anchored regex `CUSTOMER` or `ACCOUNT`,
whitespace, `DETAILS?`, whitespace-star, then one-or-more
colon/whitespace, at the head of `cs` (case-insensitive).  The
whitespace-star and the final class together consume the maximal run of
colon/whitespace characters. -/
def custAcctDetailsLen (cs : List Char) : Option Nat :=
  let head :=
    if ciIsPrefix "customer".data cs then some 8
    else if ciIsPrefix "account".data cs then some 7
    else none
  match head with
  | some h =>
    let r := wsRunLen (cs.drop h)
    if r ≥ 1 && ciIsPrefix "detail".data (cs.drop (h + r)) then
      let i2 := h + r + 6
      let sCands := if ciIsPrefix "s".data (cs.drop i2) then [i2 + 1, i2] else [i2]
      listFirstSome sCands (fun i3 =>
        let r2 := colonWsRunLen (cs.drop i3)
        if r2 ≥ 1 then some (i3 + r2) else none)
    else none
  | none => none

/-- Does `FROM` whitespace `DATE` start here (case-insensitive)? -/
def fromDateAt (cs : List Char) : Bool :=
  ciIsPrefix "from".data cs &&
    (let r := wsRunLen (cs.drop 4)
     r ≥ 1 && ciIsPrefix "date".data (cs.drop (4 + r)))

/-- Does `TO` whitespace `DATE` start here (case-insensitive)? -/
def toDateAt (cs : List Char) : Bool :=
  ciIsPrefix "to".data cs &&
    (let r := wsRunLen (cs.drop 2)
     r ≥ 1 && ciIsPrefix "date".data (cs.drop (2 + r)))

/-- Does the given lower-case literal start here (case-insensitive)? -/
def startsCIp (w : String) (cs : List Char) : Bool :=
  ciIsPrefix w.data cs

/-- Truncate `cs` at the first position where `p` holds (the `re.sub`
of a pattern `X.*` with the empty replacement). -/
def cutFirstGo (p : List Char → Bool) : List Char → List Char
  | [] => []
  | c :: rest => if p (c :: rest) then [] else c :: cutFirstGo p rest

/-- `clean_extracted_name(name)` (`header_data_filter.py` lines
343-368): drop the optional leading detail labels, truncate at
FROM-DATE / TO-DATE / BRANCH / UMFB / ANKLESHWAR / MICR / IFSC,
normalise whitespace, and reject names shorter than 2 characters or
containing BRANCH, BANK, UMFB or DETAILS as a substring of their
upper-casing. -/
def clean_extracted_name (name : String) : Option String :=
  if name = "" then none
  else
    let n0 := name.data
    let n1 := match yourDetailsLen n0 with | some k => n0.drop k | none => n0
    let n2 := match custAcctDetailsLen n1 with | some k => n1.drop k | none => n1
    let n3 := cutFirstGo fromDateAt n2
    let n4 := cutFirstGo toDateAt n3
    let n5 := cutFirstGo (startsCIp "branch") n4
    let n6 := cutFirstGo (startsCIp "umfb") n5
    let n7 := cutFirstGo (startsCIp "ankleshwar") n6
    let n8 := cutFirstGo (startsCIp "micr") n7
    let n9 := cutFirstGo (startsCIp "ifsc") n8
    let nj := joinSp (splitWsL n9)
    if nj.length < 2 ||
        ["BRANCH", "BANK", "UMFB", "DETAILS"].any (fun w => containsSubL (upL nj) w.data) then
      none
    else some (String.mk nj)

/-! ### header_data_filter.py: find_name_line -/

/-- The `branch_indicators` of `is_branch_line`. -/
def branchIndicators : List String :=
  ["BRANCH NAME", "BRANCH CODE", "BRANCH ADDRESS", "SOL ID", "UMFB",
   "ANKLESHWAR BRANCH"]

/-- `is_branch_line(idx, lines)` (`header_data_filter.py` lines
322-341): the stripped upper-cased current line contains a branch
indicator, or contains BRANCH while the next line contains NAME. -/
def is_branch_line (idx : Nat) (lines : List String) : Bool :=
  match lines.drop idx with
  | [] => false
  | cur :: rest =>
    let c := upL (stripL cur.data)
    let nxt := match rest with
      | n :: _ => upL (stripL n.data)
      | [] => ([] : List Char)
    branchIndicators.any (fun i => containsSubL c i.data) ||
      (containsSubL c "BRANCH".data && containsSubL nxt "NAME".data)

/-- Character class of the step-1 name group (case-insensitive match of
upper-case letters, plus whitespace, dot, ampersand). -/
def nameClassC (c : Char) : Bool :=
  c.isAlpha || pySpace c || c = '.' || c = '&'

/-- The terminator words of the step-1/step-2 name groups. -/
def nameTermWords : List String := ["from", "micr", "to", "branch"]

/-- Does a group terminator (whitespace plus FROM/MICR/TO/BRANCH, or end
of input) match at offset `e`? -/
def termAt (cs : List Char) (e : Nat) : Bool :=
  e = cs.length ||
    (let r := wsRunLen (cs.drop e)
     r ≥ 1 && nameTermWords.any (fun w => ciIsPrefix w.data (cs.drop (e + r))))

/-- End offset consumed by the terminator at offset `e`, following the
alternation order (the whitespace-plus-word alternatives before the
end-of-input alternative). -/
def termEndAt (cs : List Char) (e : Nat) : Option Nat :=
  let r := wsRunLen (cs.drop e)
  if r ≥ 1 then
    match nameTermWords.find? (fun w => ciIsPrefix w.data (cs.drop (e + r))) with
    | some w => some (e + r + w.length)
    | none => if e = cs.length then some e else none
  else if e = cs.length then some e else none

/-- Lazy end of a step-1 group starting at `g0`: the smallest `e` at
least two characters in, whose interior characters are all in the name
class and where a terminator matches. -/
def lazyGroupEnd (cls : Char → Bool) (cs : List Char) (g0 : Nat) : Option Nat :=
  (List.range (cs.length + 1)).find? (fun e =>
    g0 + 2 ≤ e && ((cs.drop (g0 + 1)).take (e - g0 - 1)).all cls && termAt cs e)

/-- Step-1 group after a label ending at `labelEnd`: maximal whitespace
run (the group cannot begin with a space), an alphabetic first
character, then the lazy extension to a terminator. -/
def s1GroupAt (cs : List Char) (labelEnd : Nat) : Option (List Char) :=
  let g0 := labelEnd + wsRunLen (cs.drop labelEnd)
  match charAt? cs g0 with
  | some c =>
    if c.isAlpha then
      (lazyGroupEnd nameClassC cs g0).map (fun e => (cs.drop g0).take (e - g0))
    else none
  | none => none

/-- Label `NAME` at offset `p` of the step-1 pattern 1. -/
def labelNameAt (cs : List Char) (p : Nat) : Option Nat :=
  if ciIsPrefix "name".data (cs.drop p) then some (p + 4) else none

/-- Two-word label (`CUSTOMER`, `A/C` or `ACCOUNT`, whitespace-star,
`NAME`) at offset `p`. -/
def labelTwoWordAt (w : String) (cs : List Char) (p : Nat) : Option Nat :=
  if ciIsPrefix w.data (cs.drop p) then
    let b := p + w.length
    let r := wsRunLen (cs.drop b)
    if ciIsPrefix "name".data (cs.drop (b + r)) then some (b + r + 4) else none
  else none

/-- Leftmost group of one step-1 name-indicator pattern. -/
def s1PatMatch (label : List Char → Nat → Option Nat) (cs : List Char) : Option (List Char) :=
  (List.range (cs.length + 1)).findSome? (fun p =>
    match label cs p with
    | some le => s1GroupAt cs le
    | none => none)

/-- Step 1 of `find_name_line` on one stripped line: the four explicit
name-indicator patterns in order, each accepted only when
`clean_extracted_name` keeps its group. -/
def step1Try (s : List Char) : Option String :=
  listFirstSome
    [s1PatMatch labelNameAt, s1PatMatch (labelTwoWordAt "customer"),
     s1PatMatch (labelTwoWordAt "a/c"), s1PatMatch (labelTwoWordAt "account")]
    (fun pat => (pat s).bind (fun g => clean_extracted_name (String.mk g)))

/-- The step-1 loop over the cleaned lines (`header_data_filter.py`
lines 379-395): skip blank and branch lines; on the first line where a
pattern yields a cleaned name, return that stripped line. -/
def findNameStep1Go (all : List String) (i : Nat) : List String → Option String
  | [] => none
  | l :: ls =>
    let s := pyStrip l
    if s = "" || is_branch_line i all then findNameStep1Go all (i + 1) ls
    else
      match step1Try s.data with
      | some _ => some s
      | none => findNameStep1Go all (i + 1) ls

/-- Step 1 of `find_name_line`. -/
def findNameStep1 (lines : List String) : Option String :=
  findNameStep1Go lines 0 lines

/-- Character class of the step-2 name groups (the step-1 class plus
comma). -/
def nameClassC2 (c : Char) : Bool := nameClassC c || c = ','

/-- Candidate title starts of a step-2 pattern at position `p`: with the
optional YOUR-DETAILS prefix consumed (greedy) first, then without. -/
def s2Starts (cs : List Char) (p : Nat) : List Nat :=
  match yourDetailsLen (cs.drop p) with
  | some k => [p + k, p]
  | none => [p]

/-- A step-2 pattern with a literal title (such as `M/S` or `MESSRS`)
followed by optional dot plus whitespace, the comma-extended lazy group
and a terminator.  Returns (group 1, group 0) of the leftmost match;
group 0 runs from the match start (including any YOUR-DETAILS prefix)
to the terminator end. -/
def s2TitlePat (title : String) (cs : List Char) : Option (List Char × List Char) :=
  (List.range (cs.length + 1)).findSome? (fun p =>
    listFirstSome (s2Starts cs p) (fun ts =>
      if ciIsPrefix title.data (cs.drop ts) then
        match optChWs '.' (cs.drop (ts + title.length)) with
        | some w =>
          let g0 := ts + title.length + w
          match charAt? cs g0 with
          | some c =>
            if c.isAlpha then
              (lazyGroupEnd nameClassC2 cs g0).bind (fun e =>
                (termEndAt cs e).map (fun fe =>
                  ((cs.drop g0).take (e - g0), (cs.drop p).take (fe - p))))
            else none
          | none => none
        | none => none
      else none))

/-- The personal-title alternation of step-2 pattern 4, tried in source
order. -/
def personalTitles : List String :=
  ["mr", "mrs", "ms", "miss", "dr", "shri", "smt", "kum"]

/-- Step-2 pattern 4: optional YOUR-DETAILS prefix, a personal title
with optional dot plus whitespace, the comma-extended lazy group and a
terminator. -/
def s2PersonalPat (cs : List Char) : Option (List Char × List Char) :=
  (List.range (cs.length + 1)).findSome? (fun p =>
    listFirstSome (s2Starts cs p) (fun ts =>
      listFirstSome personalTitles (fun t =>
        if ciIsPrefix t.data (cs.drop ts) then
          match optChWs '.' (cs.drop (ts + t.length)) with
          | some w =>
            let g0 := ts + t.length + w
            match charAt? cs g0 with
            | some c =>
              if c.isAlpha then
                (lazyGroupEnd nameClassC2 cs g0).bind (fun e =>
                  (termEndAt cs e).map (fun fe =>
                    ((cs.drop g0).take (e - g0), (cs.drop p).take (fe - p))))
              else none
            | none => none
          | none => none
        else none)))

/-- The business-suffix alternation of step-2 pattern 3. -/
def businessSuffixes : List String :=
  ["enterprise", "trading", "corporation", "industries"]

/-- Step-2 pattern 3: optional YOUR-DETAILS prefix, then a group made of
a lazily grown run of the comma-extended class followed by whitespace
and a business suffix, then a terminator.  The lazy growth picks the
smallest base end `b` whose whitespace run and suffix fit. -/
def s2BusinessPat (cs : List Char) : Option (List Char × List Char) :=
  (List.range (cs.length + 1)).findSome? (fun p =>
    listFirstSome (s2Starts cs p) (fun g0 =>
      match charAt? cs g0 with
      | some c =>
        if c.isAlpha then
          (List.range (cs.length + 1)).findSome? (fun b =>
            if g0 + 2 ≤ b && ((cs.drop (g0 + 1)).take (b - g0 - 1)).all nameClassC2 then
              let r := wsRunLen (cs.drop b)
              if r ≥ 1 then
                (businessSuffixes.find? (fun w => ciIsPrefix w.data (cs.drop (b + r)))).bind
                  (fun w =>
                    let ge := b + r + w.length
                    (termEndAt cs ge).map (fun fe =>
                      ((cs.drop g0).take (ge - g0), (cs.drop p).take (fe - p))))
              else none
            else none)
        else none
      | none => none))

/-- Step 2 of `find_name_line` on one stripped line
(`header_data_filter.py` lines 398-429): the four prefix patterns in
order; on a match, business-looking full matches are cleaned whole,
otherwise the group is cleaned; a surviving name accepts the line. -/
def step2Try (s : List Char) : Option String :=
  listFirstSome
    [s2TitlePat "m/s", s2TitlePat "messrs", s2BusinessPat, s2PersonalPat]
    (fun pat =>
      (pat s).bind (fun r =>
        let full := r.2
        let business :=
          containsSubL (upL full) "M/S".data ||
            ["ENTERPRISE", "TRADING", "CORPORATION", "INDUSTRIES"].any
              (fun w => containsSubL (upL full) w.data)
        (if business then clean_extracted_name (String.mk full)
         else clean_extracted_name (String.mk r.1))))

/-- The step-2 loop over the cleaned lines. -/
def findNameStep2Go (all : List String) (i : Nat) : List String → Option String
  | [] => none
  | l :: ls =>
    let s := pyStrip l
    if s = "" || is_branch_line i all then findNameStep2Go all (i + 1) ls
    else
      match step2Try s.data with
      | some _ => some s
      | none => findNameStep2Go all (i + 1) ls

/-- Step 2 of `find_name_line`. -/
def findNameStep2 (lines : List String) : Option String :=
  findNameStep2Go lines 0 lines

/-- Company-suffix tokens of the fallback scorer. -/
def companyIndicators : List String :=
  ["LIMITED", "LTD", "PVT", "PRIVATE", "CORPORATION", "CORP", "LLC", "LLP"]

/-- Address-term tokens of the fallback scorer. -/
def addressIndicatorTerms : List String :=
  ["ROAD", "STREET", "LANE", "AVENUE", "BUILDING", "FLOOR", "COMPLEX",
   "PLAZA", "TOWER"]

/-- Modelled from the spec: the fallback scoring tier of
`find_name_line`, whose body is elided in the source
(`header_data_filter.py` shows a literal placeholder after step 2).  Per
the spec: for each of the first 10 lines, score 10 per
banned-word-excluded all-caps word (at least 2 required), plus 20 for a
company-suffix token, minus 30 for an address-term token, minus 20 when
the cleaned line exceeds 50 characters, plus a linearly decaying
position bonus; the highest-scoring line with positive score is
returned. -/
def scoreLineModelled (i : Nat) (l : String) : Int × String :=
  let ws := splitWsL l.data
  let ups := ws.filter (fun w => pyIsUpper w && !bankingTerms.any (fun t => t.data = w))
  if ups.length < 2 then (0, "")
  else
    let cleaned := joinSp ups
    let base : Int := 10 * (ups.length : Int)
    let comp : Int := if companyIndicators.any (fun t => ups.any (fun w => w = t.data)) then 20 else 0
    let addr : Int := if addressIndicatorTerms.any (fun t => ups.any (fun w => w = t.data)) then -30 else 0
    let lenPen : Int := if cleaned.length > 50 then -20 else 0
    let pos : Int := if i < 10 then (10 - (i : Int)) * 2 else 0
    (base + comp + addr + lenPen + pos, String.mk cleaned)

/-- Modelled from the spec: pick the highest-scoring of the first 10
lines with a positive score (earliest on ties) and return that line. -/
def findNameFallbackModelled (lines : List String) : Option String :=
  let scored := (lines.take 10).enum.map (fun p => (scoreLineModelled p.1 p.2, p.2))
  let best := scored.foldl
    (fun acc s => match acc with
      | none => if s.1.1 > 0 then some s else none
      | some b => if s.1.1 > b.1.1 then some s else acc)
    none
  best.map (fun b => b.2)

/-- `find_name_line(cleaned_lines)` (`header_data_filter.py` lines
303-430): explicit indicators, then prefix patterns, then the
spec-modelled fallback scorer. -/
def find_name_line (lines : List String) : Option String :=
  match findNameStep1 lines with
  | some l => some l
  | none =>
    match findNameStep2 lines with
    | some l => some l
    | none => findNameFallbackModelled lines

/-! ### header_data_filter.py: extract_name_from_line

All six patterns run over the upper-cased line, case-sensitively. -/

/-- Class of the broad name-group characters (letters of either case,
whitespace, dot, ampersand). -/
def enlClass (c : Char) : Bool :=
  c.isAlpha || pySpace c || c = '.' || c = '&'

/-- Greedy group of shape upper-case letter followed by one or more
class characters (one iteration of the braced repetition; after a
maximal run the next character is outside the class, which contains all
upper-case letters, so further iterations are impossible). -/
def greedyUpperRun (cls : Char → Bool) (cs : List Char) (g0 : Nat) : Option (List Char) :=
  match charAt? cs g0 with
  | some c =>
    if c.isUpper then
      let run := ((cs.drop (g0 + 1)).takeWhile cls).length
      if run ≥ 1 then some ((cs.drop g0).take (1 + run)) else none
    else none
  | none => none

/-- Pattern 1 of `extract_name_from_line`: optional `CUSTOMER` or
`ACCOUNT` (greedy), whitespace-star, `NAME`, whitespace-star, optional
one colon/dot/space/hyphen (greedy), whitespace-star, then the greedy
group. -/
def enlP1 (cs : List Char) : Option (List Char) :=
  (List.range (cs.length + 1)).findSome? (fun p =>
    let optEnds :=
      (if "CUSTOMER".data.isPrefixOf (cs.drop p) then [p + 8] else []) ++
      (if "ACCOUNT".data.isPrefixOf (cs.drop p) then [p + 7] else []) ++ [p]
    listFirstSome optEnds (fun q =>
      let q1 := q + wsRunLen (cs.drop q)
      if "NAME".data.isPrefixOf (cs.drop q1) then
        let a := q1 + 4
        let a1 := a + wsRunLen (cs.drop a)
        let g0cands :=
          match charAt? cs a1 with
          | some c =>
            if c = ':' || c = '.' || c = ' ' || c = '-' then
              [a1 + 1 + wsRunLen (cs.drop (a1 + 1)), a1]
            else [a1]
          | none => [a1]
        listFirstSome g0cands (fun g0 => greedyUpperRun enlClass cs g0)
      else none))

/-- Patterns 2 and 3 of `extract_name_from_line`: a title alternation
(tried in order), optional dot, mandatory whitespace, then the greedy
group. -/
def enlTitlePat (titles : List String) (cs : List Char) : Option (List Char) :=
  (List.range (cs.length + 1)).findSome? (fun p =>
    listFirstSome titles (fun t =>
      if t.data.isPrefixOf (cs.drop p) then
        match optChWs '.' (cs.drop (p + t.length)) with
        | some w => greedyUpperRun enlClass cs (p + t.length + w)
        | none => none
      else none))

/-- Pattern 4 of `extract_name_from_line`: a group of an upper-case
letter, a greedily grown class run, whitespace and the literal
`ENTERPRISE`; greedy growth picks the largest base end that still fits
the whitespace and suffix. -/
def enlEnterprisePat (cs : List Char) : Option (List Char) :=
  (List.range (cs.length + 1)).findSome? (fun p =>
    match charAt? cs p with
    | some c =>
      if c.isUpper then
        ((List.range (cs.length + 1)).reverse.findSome? (fun b =>
          if p + 2 ≤ b && ((cs.drop (p + 1)).take (b - p - 1)).all enlClass then
            let r := wsRunLen (cs.drop b)
            if r ≥ 1 && "ENTERPRISE".data.isPrefixOf (cs.drop (b + r)) then
              some ((cs.drop p).take (b + r + 10 - p))
            else none
          else none))
      else none
    | none => none)

/-- One repetition of shape upper-case letter, maximal alphabetic run,
mandatory whitespace run, used by patterns 5 and 6; returns the end
offset after the whitespace. -/
def enlWordWs (cs : List Char) (q : Nat) : Option Nat :=
  match charAt? cs q with
  | some c =>
    if c.isUpper then
      let run := ((cs.drop (q + 1)).takeWhile Char.isAlpha).length
      let r := wsRunLen (cs.drop (q + 1 + run))
      if run ≥ 1 && r ≥ 1 then some (q + 1 + run + r) else none
    else none
  | none => none

/-- `k` repetitions of the word-plus-whitespace shape. -/
def enlWordWsRep (cs : List Char) : Nat → Nat → Option Nat
  | 0, q => some q
  | k + 1, q => (enlWordWs cs q).bind (fun q2 => enlWordWsRep cs k q2)

/-- Candidate group starts for the leading start-of-line-or-whitespace
alternation of patterns 5 and 6, in leftmost match order. -/
def enlAnchorStarts (cs : List Char) : List Nat :=
  (if cs.isEmpty then [0] else [0]) ++
    ((List.range cs.length).filter (fun i =>
      match charAt? cs i with
      | some c => pySpace c
      | none => false)).map (fun i => i + 1)

/-- The Indian-surname alternation of pattern 5. -/
def surnameSuffixes : List String :=
  ["KUMAR", "LAL", "CHAND", "RAJ", "DEVI", "BAI", "SINGH", "KAUR"]

/-- Pattern 5 of `extract_name_from_line`: after a start-of-line or
whitespace anchor, one to three word-plus-whitespace repetitions
(greedy, so more repetitions are tried first) ending in one of the known
surnames. -/
def enlSurnamePat (cs : List Char) : Option (List Char) :=
  listFirstSome (enlAnchorStarts cs) (fun g =>
    listFirstSome [3, 2, 1] (fun k =>
      (enlWordWsRep cs k g).bind (fun q =>
        (surnameSuffixes.find? (fun w => w.data.isPrefixOf (cs.drop q))).map (fun w =>
          (cs.drop g).take (q + w.length - g)))))

/-- Pattern 6 of `extract_name_from_line`: after a start-of-line or
whitespace anchor, one to five word-plus-whitespace repetitions (greedy)
and a final upper-case word of at least two letters, followed by
whitespace or the end of the line. -/
def enlCapSeqPat (cs : List Char) : Option (List Char) :=
  listFirstSome (enlAnchorStarts cs) (fun g =>
    listFirstSome [5, 4, 3, 2, 1] (fun k =>
      (enlWordWsRep cs k g).bind (fun q =>
        match charAt? cs q with
        | some c =>
          if c.isUpper then
            let run := ((cs.drop (q + 1)).takeWhile Char.isAlpha).length
            if run ≥ 1 &&
                (match charAt? cs (q + 1 + run) with
                 | some d => pySpace d
                 | none => true) then
              some ((cs.drop g).take (q + 1 + run - g))
            else none
          else none
        | none => none)))

/-- The after-match clean-up of `extract_name_from_line`: strip, then
truncate at FROM-DATE, TO-DATE, BRANCH, UMFB, ANKLESHWAR, MICR. -/
def enlCleanName (g : List Char) : List Char :=
  let n0 := stripL g
  let n1 := cutFirstGo fromDateAt n0
  let n2 := cutFirstGo toDateAt n1
  let n3 := cutFirstGo (startsCIp "branch") n2
  let n4 := cutFirstGo (startsCIp "umfb") n3
  let n5 := cutFirstGo (startsCIp "ankleshwar") n4
  cutFirstGo (startsCIp "micr") n5

/-- The word-level validation of `extract_name_from_line`: two to six
words, none of them BRANCH, BANK, STATEMENT or UMFB, all of length at
least two. -/
def enlValid (name : List Char) : Bool :=
  let ws := splitWsL name
  decide (2 ≤ ws.length) && decide (ws.length ≤ 6) &&
    !ws.any (fun w => ["BRANCH", "BANK", "STATEMENT", "UMFB"].any (fun t => t.data = w)) &&
    ws.all (fun w => decide (2 ≤ w.length))

/-- `extract_name_from_line(line)` (`header_data_filter.py` lines
432-475): the six patterns in order over the upper-cased line; the
first whose cleaned group passes validation yields the (truncated,
unnormalised) name. -/
def extract_name_from_line (line : String) : Option String :=
  let u := upL line.data
  listFirstSome
    [enlP1, enlTitlePat ["MR", "MRS", "MS", "MISS", "DR", "SHRI", "SMT"],
     enlTitlePat ["M/S"], enlEnterprisePat, enlSurnamePat, enlCapSeqPat]
    (fun pat =>
      (pat u).bind (fun g =>
        let name := enlCleanName g
        if enlValid name then some (String.mk name) else none))

/-! ### header_data_filter.py: filter_header_data -/

/-- Kept characters of the per-line cleaning sub of
`filter_header_data`: the negated class holds everything except word
characters, whitespace and the character range from dot to colon
(codes 46 to 58: dot, slash, the digits, colon). -/
def hdfKeep (c : Char) : Bool :=
  isWordChar c || pySpace c || (46 ≤ c.toNat && c.toNat ≤ 58)

/-- One cleaned line of `filter_header_data`: unkept characters become
spaces, then the line is stripped. -/
def cleanedLineHDF (l : String) : String :=
  pyStrip (String.mk (l.data.map (fun c => if hdfKeep c then c else ' ')))

/-- The cleaned non-empty lines of `filter_header_data`. -/
def cleanedLinesHDF (raw : String) : List String :=
  ((pySplitNl raw).map cleanedLineHDF).filter (fun l => l ≠ "")

/-- Python truthiness of the pair returned by
`extract_account_number`: a 2-tuple is always truthy, even when it is
`(None, None)`. -/
def pyTruthyTuple (_ : Option String × Option String) : Bool := true

/-- The account-scan loop of `filter_header_data` (lines 506-511): the
first line whose `extract_account_number` result is truthy — that is,
always the first line — provides the stored pair and line. -/
def accountScanHDF : List String → Option ((Option String × Option String) × String)
  | [] => none
  | l :: ls =>
    let t := extract_account_number l
    if pyTruthyTuple t then some (t, l) else accountScanHDF ls

/-- The result dictionary of `filter_header_data`; `detection_info` is
always `None` in the source and is omitted. -/
structure FilterResult where
  account_number : Option (Option String × Option String)
  customer_name : Option String
  account_line : Option String
  name_line : Option String
  cleaned_content : Option String
  deriving Repr, DecidableEq

/-- `filter_header_data(raw_content)` (`header_data_filter.py` lines
477-524). -/
def filter_header_data (raw : String) : FilterResult :=
  if raw = "" then ⟨none, none, none, none, none⟩
  else
    let cls := cleanedLinesHDF raw
    let acct := accountScanHDF cls
    let nl := find_name_line cls
    { account_number := acct.map (fun p => p.1)
      customer_name := nl.bind extract_name_from_line
      account_line := acct.map (fun p => p.2)
      name_line := nl
      cleaned_content := some (joinNlStr cls) }

/-! ### test_pdf_extraction_report.py: extraction status -/

/-- The three extraction statuses of the report. -/
inductive ExtractionStatus where
  | success
  | partialResult
  | failed
  deriving Repr, DecidableEq

/-- Python truthiness of the stored account-number field (`None` is
falsy; any tuple, including `(None, None)`, is truthy). -/
def truthyAcct (a : Option (Option String × Option String)) : Bool :=
  a.isSome

/-- Python truthiness of the stored customer-name field (`None` and the
empty string are falsy). -/
def truthyName : Option String → Bool
  | none => false
  | some s => s ≠ ""

/-- The status classification of `generate_extraction_report`
(`test_pdf_extraction_report.py` lines 104-117): Success when both
fields are truthy, Partial when at least one is, Failed otherwise. -/
def statusOf (a : Option (Option String × Option String)) (n : Option String) :
    ExtractionStatus :=
  if truthyAcct a && truthyName n then ExtractionStatus.success
  else if truthyAcct a || truthyName n then ExtractionStatus.partialResult
  else ExtractionStatus.failed

/-! ### pdf_header_extractor_v2.py: extract_header_content

The PDF reading itself is the out-of-scope collaborator; the embedding
takes the extracted text of the first page as input and mirrors
everything the function does with it (lines 18-67). -/

/-- Anchored match at the head of the line (a pattern beginning with the
caret, searched without MULTILINE). -/
def anchoredK (k : K) (cs : List Char) : Bool := k cs

/-- Transaction pattern: 2 digits, hyphen-or-slash, 2 digits,
hyphen-or-slash, 2-4 digits, used as date piece of v2 patterns 1
and 2. -/
def v2DateK (k : K) : K :=
  repK Char.isDigit 2
    (chK (fun c => c = '-' || c = '/')
      (repK Char.isDigit 2
        (chK (fun c => c = '-' || c = '/')
          (rangeK Char.isDigit 2 2 k))))

/-- The `transaction_patterns` list of `extract_header_content`
(`pdf_header_extractor_v2.py` lines 26-45), each searched
case-insensitively. -/
def transactionPatternsHit (line : String) : Bool :=
  let l := lowL line.data
  anchoredK (v2DateK (plusK pySpace (v2DateK (plusK pySpace trueK)))) l ||
  anchoredK (v2DateK (plusK pySpace (plusK Char.isAlpha trueK))) l ||
  anchoredK (litCIK "date".data (plusK pySpace (litCIK "narration".data trueK))) l ||
  anchoredK (litCIK "date".data (plusK pySpace (litCIK "particulars".data trueK))) l ||
  anchoredK (litCIK "date".data (plusK pySpace (litCIK "description".data trueK))) l ||
  anchoredK (litCIK "tran date".data trueK) l ||
  anchoredK (litCIK "trans date".data trueK) l ||
  anchoredK (litCIK "sl".data (optK (litK ['.'])
    (starK pySpace (litCIK "no".data (optK (litK ['.'])
      (starK pySpace (litCIK "date".data trueK))))))) l ||
  anchoredK (litCIK "opening".data (plusK pySpace (litCIK "balance".data trueK))) l ||
  anchoredK (litCIK "balance".data (plusK pySpace (litCIK "brought".data
    (plusK pySpace (litCIK "forward".data trueK))))) l ||
  searchK (litCIK "description".data (plusK pySpace (litCIK "withdrawal".data
    (plusK pySpace (litCIK "deposit".data trueK))))) l ||
  searchK (litCIK "debit".data (plusK pySpace (litCIK "credit".data
    (plusK pySpace (litCIK "balance".data trueK))))) l ||
  searchK (litCIK "chq".data (optK (litK ['.'])
    (litK ['/'] (litCIK "ref".data (optK (litK ['.'])
      (starK pySpace (litCIK "no".data (litK ['.'] trueK)))))))) l ||
  searchK (litCIK "withdrawal".data (optK (litCIK "s".data)
    (plusK pySpace (litCIK "deposit".data (optK (litCIK "s".data) trueK))))) l ||
  anchoredK (litCIK "sr".data (litK ['.'] (starK pySpace (litCIK "no".data (litK ['.'] trueK))))) l ||
  anchoredK (litCIK "particulars".data (plusK pySpace (litCIK "amount".data trueK))) l ||
  searchK (litCIK "value".data (plusK pySpace (litCIK "dt".data
    (plusK pySpace (litCIK "withdrawal".data trueK))))) l

/-- `extract_header_content` applied to the text extracted from the
first PDF page (`pdf_header_extractor_v2.py` lines 18-67): the sentinel
string for empty text; otherwise the stripped non-empty lines up to the
first transaction marker, joined with newlines, with sentinels for a
missing marker (full content) and an empty header. -/
def extract_header_content_text (text : String) : String :=
  if text = "" then "No text found in PDF"
  else
    let lines := splitStripNonempty text
    match lines.findIdx? (fun l => transactionPatternsHit l) with
    | none => joinNlStr lines
    | some 0 => "No header content found"
    | some i => joinNlStr (lines.take i)

/-- The per-document pipeline of `generate_extraction_report`
(`test_pdf_extraction_report.py` lines 78-117) as a function of the
extracted first-page text: header extraction, filtering, and the status
classification. -/
def pipelineOnText (text : String) : FilterResult × ExtractionStatus :=
  let fd := filter_header_data (extract_header_content_text text)
  (fd, statusOf fd.account_number fd.customer_name)

/-! ## Theorems for the claims -/

/-- C1 counterexample: for the line `NAME OF CUSTOMER: JOHN SMITH
KUMAR`, tier 1 of the name cascade (`extract_name_from_pattern`) does
not return the bare string `JOHN SMITH KUMAR`: the source includes the
matched label in the returned name. -/
theorem c1_counterexample :
    (extract_name_from_pattern "NAME OF CUSTOMER: JOHN SMITH KUMAR").1 ≠
      "JOHN SMITH KUMAR" := by
  decide

/-- C1 amended: applied to the line `NAME OF CUSTOMER: JOHN SMITH
KUMAR`, `extract_name_from_pattern` returns the capitalized run together
with the label, `NAME OF CUSTOMER: JOHN SMITH KUMAR`, with entity type
`individual`; the returned name contains no digits; and the explicit
label step of `find_name_line` does not match this line at all (the
colon is outside its capture class). -/
theorem c1_amended :
    extract_name_from_pattern "NAME OF CUSTOMER: JOHN SMITH KUMAR" =
      ("NAME OF CUSTOMER: JOHN SMITH KUMAR", "individual") ∧
    ((extract_name_from_pattern "NAME OF CUSTOMER: JOHN SMITH KUMAR").1.data.all
      (fun c => !c.isDigit)) = true ∧
    findNameStep1 ["NAME OF CUSTOMER: JOHN SMITH KUMAR"] = none := by
  refine ⟨by decide, by decide, by decide⟩

/-- C9 counterexample: for the document `CUSTOMER NAME SURESH PATEL`,
no account number is found — the stored pair is `(None, None)` — and
only the customer name is found, yet the recorded status is `Success`,
because the stored 2-tuple is truthy. -/
theorem c9_counterexample :
    (filter_header_data "CUSTOMER NAME SURESH PATEL").account_number = some (none, none) ∧
    (filter_header_data "CUSTOMER NAME SURESH PATEL").customer_name = some "SURESH PATEL" ∧
    statusOf (filter_header_data "CUSTOMER NAME SURESH PATEL").account_number
      (filter_header_data "CUSTOMER NAME SURESH PATEL").customer_name =
      ExtractionStatus.success := by
  refine ⟨by decide, by decide, by decide⟩

/-- C9 amended: the status is computed from Python truthiness of the
two stored fields — `Success` iff both are truthy, `Partial` iff exactly
one is, `Failed` iff neither is; since the account field stores the
2-tuple returned by `extract_account_number`, which is truthy even as
`(None, None)`, truthiness of that field does not mean an account number
was found. -/
theorem c9_amended (a : Option (Option String × Option String)) (n : Option String) :
    (statusOf a n = ExtractionStatus.success ↔ truthyAcct a = true ∧ truthyName n = true) ∧
    (statusOf a n = ExtractionStatus.partialResult ↔
      ((truthyAcct a = true ∧ truthyName n = false) ∨
       (truthyAcct a = false ∧ truthyName n = true))) ∧
    (statusOf a n = ExtractionStatus.failed ↔
      truthyAcct a = false ∧ truthyName n = false) := by
  unfold statusOf
  cases h1 : truthyAcct a <;> cases h2 : truthyName n <;> simp

/-- C10: for a document whose extracted text is empty, the pipeline
does terminate (every stage is a total function), but it does not record
`Failed` with both fields `None`: `extract_header_content` substitutes
the sentinel `No text found in PDF`, `filter_header_data` stores the
truthy pair `(None, None)` as account number, and the recorded status is
`Partial`.  With an empty raw content handed directly to
`filter_header_data`, the claimed all-`None`, `Failed` outcome does
hold. -/
theorem c10_empty_text_pipeline :
    extract_header_content_text "" = "No text found in PDF" ∧
    (pipelineOnText "").1.account_number = some (none, none) ∧
    (pipelineOnText "").1.customer_name = none ∧
    (pipelineOnText "").2 = ExtractionStatus.partialResult ∧
    (pipelineOnText "").2 ≠ ExtractionStatus.failed ∧
    filter_header_data "" = ⟨none, none, none, none, none⟩ ∧
    statusOf (filter_header_data "").account_number (filter_header_data "").customer_name =
      ExtractionStatus.failed := by
  refine ⟨by decide, by decide, by decide, by decide, by decide, by decide, by decide⟩

/-- Helper for C2: the stage-0 loop of `analyze_pdf` maps every raw
line before the first marker to its stripped form (dropping empties) and
stops at the marker, whatever follows it. -/
theorem stage0Go_boundary (pre post : List String) (m : String)
    (hpre : ∀ l ∈ pre, pyStrip l ≠ "" →
      is_table_header (pyStrip l) = false ∧ is_transaction_line (pyStrip l) = false)
    (hm : pyStrip m ≠ "")
    (hmk : is_table_header (pyStrip m) = true ∨ is_transaction_line (pyStrip m) = true) :
    stage0Go (pre ++ m :: post) = (pre.map pyStrip).filter (fun s => s ≠ "") := by
  induction pre with
  | nil =>
    simp only [List.nil_append, List.map_nil, List.filter_nil]
    unfold stage0Go
    rw [if_neg hm]
    have : (is_table_header (pyStrip m) || is_transaction_line (pyStrip m)) = true := by
      rcases hmk with h | h <;> simp [h]
    rw [if_pos this]
  | cons l pre ih =>
    have ih' := ih (fun x hx => hpre x (List.mem_cons_of_mem l hx))
    simp only [List.cons_append, List.map_cons]
    unfold stage0Go
    by_cases hl : pyStrip l = ""
    · rw [if_pos hl, ih', List.filter_cons]
      simp [hl]
    · rw [if_neg hl]
      have hmrk := hpre l (List.mem_cons_self l pre) hl
      have : (is_table_header (pyStrip l) || is_transaction_line (pyStrip l)) = false := by
        simp [hmrk.1, hmrk.2]
      rw [if_neg (by simp [this]), ih', List.filter_cons]
      simp [hl]

/-- C2 counterexample: a document whose very first non-empty line is a
transaction row but not a table header; `detect_header_section` does not
treat it as the boundary (its transaction-row test carries an index
guard), and the later line `MR RAJESH KUMAR` — after the first
rule-satisfying line — is still admitted to the header. -/
theorem c2_counterexample :
    splitStripNonempty
        "01-01-24 pay 1,234.56\nMR RAJESH KUMAR\nDate Particulars Debit Credit" =
      ["01-01-24 pay 1,234.56", "MR RAJESH KUMAR", "Date Particulars Debit Credit"] ∧
    is_transaction_line "01-01-24 pay 1,234.56" = true ∧
    is_table_header "01-01-24 pay 1,234.56" = false ∧
    detect_header_section
        "01-01-24 pay 1,234.56\nMR RAJESH KUMAR\nDate Particulars Debit Credit" =
      (["RAJESH KUMAR"], ["Date Particulars Debit Credit"]) := by
  refine ⟨by decide, by decide, by decide, by decide⟩

/-- C2 amended: in the stage-0 segmentation of `analyze_pdf`, the first
non-empty line satisfying either table-marker rule is the boundary —
the header is exactly the stripped non-empty lines before it and
nothing at or after it is admitted, including when the boundary is the
very first non-empty line; `detect_header_section` behaves the same for
the table-header rule but ignores the transaction-row rule on the first
non-empty line, and admits prior lines only after name-line cleaning. -/
theorem c2_amended (pre post : List String) (m : String)
    (hpre : ∀ l ∈ pre, pyStrip l ≠ "" →
      is_table_header (pyStrip l) = false ∧ is_transaction_line (pyStrip l) = false)
    (hm : pyStrip m ≠ "")
    (hmk : is_table_header (pyStrip m) = true ∨ is_transaction_line (pyStrip m) = true) :
    stage0Go (pre ++ m :: post) = (pre.map pyStrip).filter (fun s => s ≠ "") :=
  stage0Go_boundary pre post m hpre hm hmk

/-- C2 witness: the amended statement at a concrete document whose
boundary is its second line. -/
theorem c2_witness :
    stage0Go ["HELLO WORLD", "Date Particulars Debit Credit Balance", "X"] =
      ["HELLO WORLD"] := by
  have h := c2_amended ["HELLO WORLD"] ["X"] "Date Particulars Debit Credit Balance"
    (by intro l hl _; simp only [List.mem_singleton] at hl; subst hl; exact ⟨by decide, by decide⟩)
    (by decide) (Or.inl (by decide))
  simpa using h

/-- Helper for C3: when no line of `pre` satisfies either table-marker
rule and `m` is a table header, the `detect_header_section` loop puts
the cleaned `pre` lines in the header and `m` with everything after it
in the table, from any starting index. -/
theorem detectGo_boundary (pre post : List String) (m : String)
    (hpre : ∀ l ∈ pre, is_table_header l = false ∧ is_transaction_line l = false)
    (hm : is_table_header m = true) :
    ∀ i, detectGo i (pre ++ m :: post) =
      (pre.filterMap (fun l => if clean_header_line l = "" then none else some (clean_header_line l)),
       m :: post) := by
  induction pre with
  | nil =>
    intro i
    simp only [List.nil_append, List.filterMap_nil]
    unfold detectGo
    rw [if_pos (by simp [hm])]
  | cons l pre ih =>
    intro i
    have hl := hpre l (List.mem_cons_self l pre)
    have ih' := ih (fun x hx => hpre x (List.mem_cons_of_mem l hx)) (i + 1)
    simp only [List.cons_append, List.filterMap_cons]
    unfold detectGo
    rw [if_neg (by simp [hl.1, hl.2]), ih']
    by_cases hc : clean_header_line l = "" <;> simp [hc]

/-- C3: for every document whose first line satisfying a table-marker
rule is `Date Particulars Debit Credit Balance`, the table-header rule
fires on that line, it becomes the table boundary, and the returned
header segment — the address-filtered cleaning of the earlier lines
only — excludes that line and every subsequent line, which all land in
the table part. -/
theorem c3_boundary_line (text : String) (pre post : List String)
    (hsplit : splitStripNonempty text =
      pre ++ "Date Particulars Debit Credit Balance" :: post)
    (hpre : ∀ l ∈ pre, is_table_header l = false ∧ is_transaction_line l = false) :
    is_table_header "Date Particulars Debit Credit Balance" = true ∧
    detect_header_section text =
      (remove_address_block_hd (pre.filterMap (fun l =>
         if clean_header_line l = "" then none else some (clean_header_line l))),
       "Date Particulars Debit Credit Balance" :: post) := by
  have hhdr : is_table_header "Date Particulars Debit Credit Balance" = true := by decide
  refine ⟨hhdr, ?_⟩
  have htext : text ≠ "" := by
    intro h
    rw [h] at hsplit
    have hempty : splitStripNonempty "" = [] := by decide
    rw [hempty] at hsplit
    exact absurd hsplit.symm (List.append_ne_nil_of_right_ne_nil pre (List.cons_ne_nil _ _))
  unfold detect_header_section
  rw [if_neg htext, hsplit, detectGo_boundary pre post _ hpre hhdr 0]

/-- C3 witness: the boundary statement at a concrete three-line
document. -/
theorem c3_witness :
    detect_header_section "HELLO\nDate Particulars Debit Credit Balance\n01-02-24 x 99.99" =
      ([], ["Date Particulars Debit Credit Balance", "01-02-24 x 99.99"]) := by
  have h := c3_boundary_line
    "HELLO\nDate Particulars Debit Credit Balance\n01-02-24 x 99.99"
    ["HELLO"] ["01-02-24 x 99.99"] (by decide)
    (by intro l hl; simp only [List.mem_singleton] at hl; subst hl; exact ⟨by decide, by decide⟩)
  have h2 := h.2
  simpa using h2

/-- C4: whenever at least one cleaned line exists, the account-scan
loop commits to the very first line — `extract_account_number` returns a
2-tuple, which is truthy even as `(None, None)` — so the
`account_number` field of `filter_header_data` is non-`None`, and the
downstream status can consequently never be `Failed`. -/
theorem c4_account_field_truthy (raw c : String) (rest : List String)
    (h : cleanedLinesHDF raw = c :: rest) :
    (filter_header_data raw).account_number = some (extract_account_number c) ∧
    (filter_header_data raw).account_number ≠ none ∧
    statusOf (filter_header_data raw).account_number
      (filter_header_data raw).customer_name ≠ ExtractionStatus.failed := by
  have hraw : raw ≠ "" := by
    intro hr
    rw [hr] at h
    have hempty : cleanedLinesHDF "" = [] := by decide
    rw [hempty] at h
    exact List.noConfusion h
  have hacct : (filter_header_data raw).account_number = some (extract_account_number c) := by
    unfold filter_header_data
    rw [if_neg hraw]
    simp only [h]
    unfold accountScanHDF
    simp [pyTruthyTuple]
  refine ⟨hacct, by simp [hacct], ?_⟩
  unfold statusOf truthyAcct
  rw [hacct]
  cases truthyName (filter_header_data raw).customer_name <;> simp

/-- C4 witness: a one-line document; its account-number field is set
(to the truthy all-`None` pair) and the status is not `Failed`. -/
theorem c4_witness :
    (filter_header_data "HELLO WORLD").account_number ≠ none ∧
    statusOf (filter_header_data "HELLO WORLD").account_number
      (filter_header_data "HELLO WORLD").customer_name ≠ ExtractionStatus.failed := by
  have h := c4_account_field_truthy "HELLO WORLD" "HELLO WORLD" [] (by decide)
  exact ⟨h.2.1, h.2.2⟩

/-- Helper for C5: once the `find_address_block` loop has reset to the
initial state, a tail with no address or trigger lines leaves the
no-block answer in place. -/
theorem fabGo_no_addr (ys : List String)
    (hys : ∀ l ∈ ys, (is_address_trigger_pa l || is_address_line_pa l) = false) :
    ∀ i, fabGo ⟨-1, -1, false, 0⟩ i ys = (-1, -1) := by
  induction ys with
  | nil => intro i; rfl
  | cons l ls ih =>
    intro i
    have hl := hys l (List.mem_cons_self l ls)
    have ih' := ih (fun x hx => hys x (List.mem_cons_of_mem l hx)) (i + 1)
    unfold fabGo
    rw [if_neg (by simp at hl; simp [hl.1, hl.2])]
    simpa using ih'

/-- C5: the address remover drops the three consecutive address-like
lines of the given input and keeps `MR RAJESH SHAH`; and in general a
single address-like line followed by a non-address line (with no
further address lines) is a discarded tentative block — the list is
returned unchanged. -/
theorem c5_address_block :
    remove_address_block_pa
        ["FLAT NO 12", "SECTOR 5 ROAD", "MUMBAI MAHARASHTRA 400001", "MR RAJESH SHAH"] =
      ["MR RAJESH SHAH"] ∧
    (∀ (x y : String) (ys : List String),
      (is_address_trigger_pa x || is_address_line_pa x) = true →
      (is_address_trigger_pa y || is_address_line_pa y) = false →
      (∀ l ∈ ys, (is_address_trigger_pa l || is_address_line_pa l) = false) →
      remove_address_block_pa (x :: y :: ys) = x :: y :: ys) := by
  constructor
  · decide
  · intro x y ys hx hy hys
    have hfab : find_address_block (x :: y :: ys) = (-1, -1) := by
      unfold find_address_block fabGo
      rw [if_pos hx]
      simp only []
      unfold fabGo
      rw [if_neg (by simp at hy; simp [hy.1, hy.2])]
      simpa using fabGo_no_addr ys hys 2
    unfold remove_address_block_pa
    rw [if_neg (by simp)]
    rw [hfab]
    simp

/-- C5 witness: the general discard statement at a concrete pair of
lines — one address-like line before a name line is not removed. -/
theorem c5_witness :
    (is_address_trigger_pa "FLAT NO 12" || is_address_line_pa "FLAT NO 12") = true ∧
    remove_address_block_pa ["FLAT NO 12", "MR RAJESH SHAH"] =
      ["FLAT NO 12", "MR RAJESH SHAH"] := by
  refine ⟨by decide, ?_⟩
  exact c5_address_block.2 "FLAT NO 12" "MR RAJESH SHAH" []
    (by decide) (by decide) (by intro l hl; exact absurd hl (List.not_mem_nil l))

/-- C6 counterexample: the ratio check counts slashes and hyphens along
with digits.  The line `123/JOHNX` has a digit-character fraction of
exactly one third (3 of 9), and the rest of the pipeline would keep a
non-empty remnant of it, yet `clean_header_content` discards it
entirely because the counted class also includes the slash. -/
theorem c6_counterexample :
    3 * ("123/JOHNX".data.countP Char.isDigit) = "123/JOHNX".data.length ∧
    processLine "123/JOHNX" = some "/JOHNX" ∧
    clean_header_content ["123/JOHNX"] = [] := by
  refine ⟨by decide, by decide, by decide⟩

/-- C6 amended: with the counted class being digit, slash and hyphen
characters, a line whose counted fraction is exactly one third of its
length is retained (it goes through the remaining cleaning pipeline),
while a line whose counted fraction is strictly above one third is
discarded entirely. -/
theorem c6_ratio_boundary :
    (∀ l : String, 3 * countNSD l.data = l.data.length →
      clean_header_content [l] = (processLine l).toList) ∧
    (∀ l : String, 3 * countNSD l.data > l.data.length →
      clean_header_content [l] = []) := by
  constructor
  · intro l h
    have hr : ratioSkip l = false := by
      unfold ratioSkip
      simp only [decide_eq_false_iff_not]
      omega
    have hcf : cleanLineFull l = processLine l := by
      unfold cleanLineFull processLine
      by_cases hs : (stripL l.data).isEmpty
      · rw [if_pos hs, if_pos hs]
      · rw [if_neg hs, if_neg hs, if_neg (by simp [hr])]
    show List.filterMap cleanLineFull [l] = (processLine l).toList
    rw [List.filterMap_cons, hcf]
    cases processLine l <;> simp
  · intro l h
    have hr : ratioSkip l = true := by
      unfold ratioSkip
      simpa using h
    have hcf : cleanLineFull l = none := by
      unfold cleanLineFull
      by_cases hs : (stripL l.data).isEmpty
      · rw [if_pos hs]
      · rw [if_neg hs, if_pos (by simp [hr])]
    show List.filterMap cleanLineFull [l] = []
    rw [List.filterMap_cons, hcf]
    simp

/-- C6 witness: both halves of the boundary statement at concrete
lines — `AB1` sits exactly at the threshold and is retained, `111A`
sits above it and is discarded. -/
theorem c6_witness :
    clean_header_content ["AB1"] = (processLine "AB1").toList ∧
    clean_header_content ["111A"] = [] := by
  exact ⟨c6_ratio_boundary.1 "AB1" (by decide), c6_ratio_boundary.2 "111A" (by decide)⟩

/-- C8 counterexample: on the text `transaction 12345678901` no labeled
account pattern matches, the line carries a standalone 11-digit run and
none of the five vocabulary words the claim lists — but the code's
vocabulary also contains `transaction`, so the extractor returns
`(None, None)` instead of the run. -/
theorem c8_counterexample :
    searchLines pat1Line (pySplitNl "transaction 12345678901") = none ∧
    searchLines pat2Line (pySplitNl "transaction 12345678901") = none ∧
    searchLines pat3Line (pySplitNl "transaction 12345678901") = none ∧
    (["balance", "credit", "debit", "amount", "date"].any
      (fun w => containsSubCI "transaction 12345678901".data w.data)) = false ∧
    standaloneRun10 "transaction 12345678901".data = some "12345678901".data ∧
    extract_account_number "transaction 12345678901" = (none, none) := by
  refine ⟨by decide, by decide, by decide, by decide, by decide, by decide⟩

/-- Helper for C8: the fallback scan returns the first line without
transaction vocabulary that has a standalone run. -/
theorem acctFallback_first (pre post : List String) (l : String)
    (hpre : ∀ p ∈ pre, hasTransVocab p.data = true ∨ standaloneRun10 p.data = none)
    (hl : hasTransVocab l.data = false)
    (d : List Char) (hd : standaloneRun10 l.data = some d) :
    acctFallback (pre ++ l :: post) = (some (String.mk d), some l) := by
  induction pre with
  | nil =>
    simp only [List.nil_append]
    unfold acctFallback
    rw [hl]
    simp [hd]
  | cons p pre ih =>
    have hp := hpre p (List.mem_cons_self p pre)
    have ih' := ih (fun x hx => hpre x (List.mem_cons_of_mem p hx))
    simp only [List.cons_append]
    unfold acctFallback
    rcases hp with hv | hr
    · rw [hv]
      simpa using ih'
    · by_cases hv : hasTransVocab p.data
      · rw [hv]; simpa using ih'
      · simp only [hv]
        rw [hr]
        simpa using ih'

/-- Helper for C8: when every line is skipped (vocabulary present or no
standalone run), the fallback scan returns `(None, None)`. -/
theorem acctFallback_none (lines : List String)
    (h : ∀ l ∈ lines, hasTransVocab l.data = true ∨ standaloneRun10 l.data = none) :
    acctFallback lines = (none, none) := by
  induction lines with
  | nil => rfl
  | cons l ls ih =>
    have hl := h l (List.mem_cons_self l ls)
    have ih' := ih (fun x hx => h x (List.mem_cons_of_mem l hx))
    unfold acctFallback
    rcases hl with hv | hr
    · rw [hv]; simpa using ih'
    · by_cases hv : hasTransVocab l.data
      · rw [hv]; simpa using ih'
      · simp only [hv]
        rw [hr]
        simpa using ih'

/-- C8 amended: when no labeled account pattern matches, the extractor
falls back to scanning lines for a standalone run of at least 10 digits
on a line that contains none of the six vocabulary words balance,
credit, debit, amount, date, transaction (the claim omitted
`transaction`): the first such line yields the run and the line, and
when every line is skipped the result is `(None, None)`. -/
theorem c8_fallback_contract (text : String)
    (h1 : searchLines pat1Line (pySplitNl text) = none)
    (h2 : searchLines pat2Line (pySplitNl text) = none)
    (h3 : searchLines pat3Line (pySplitNl text) = none) :
    extract_account_number text = acctFallback (pySplitNl text) ∧
    (∀ (pre post : List String) (l : String),
      pySplitNl text = pre ++ l :: post →
      (∀ p ∈ pre, hasTransVocab p.data = true ∨ standaloneRun10 p.data = none) →
      hasTransVocab l.data = false →
      ∀ d, standaloneRun10 l.data = some d →
      extract_account_number text = (some (String.mk d), some l)) ∧
    ((∀ l ∈ pySplitNl text, hasTransVocab l.data = true ∨ standaloneRun10 l.data = none) →
      extract_account_number text = (none, none)) := by
  have hfb : extract_account_number text = acctFallback (pySplitNl text) := by
    unfold extract_account_number
    simp only [h1, h2, h3]
  refine ⟨hfb, ?_, ?_⟩
  · intro pre post l hsplit hpre hl d hd
    rw [hfb, hsplit]
    exact acctFallback_first pre post l hpre hl d hd
  · intro hall
    rw [hfb]
    exact acctFallback_none _ hall

/-- C8 witness: the fallback contract at a concrete two-line text whose
second line carries the standalone run. -/
theorem c8_witness :
    extract_account_number "hello\n9876543210123" =
      (some "9876543210123", some "9876543210123") := by
  have h := (c8_fallback_contract "hello\n9876543210123"
    (by decide) (by decide) (by decide)).2.1
    ["hello"] [] "9876543210123" (by decide)
    (by intro p hp; simp only [List.mem_singleton] at hp; subst hp; exact Or.inr (by decide))
    (by decide) "9876543210123".data (by decide)
  simpa using h

/-! ### C7: idempotence of clean_header_content on clean all-caps name
lines

An already-clean all-caps name line — one the noise stripper leaves
untouched — is a single-space join of non-empty words of at most 7
upper-case letters (the code removes bounded upper-case/digit runs of
length at least 8), none of which is a banned word. -/

/-- A word of a clean all-caps name line: non-empty, at most 7
characters, all upper-case letters, not a banned word. -/
def isCleanCapsWord (w : List Char) : Bool :=
  !w.isEmpty && decide (w.length ≤ 7) && w.all (fun c => c.isUpper) &&
    !bannedWords.any (fun b => b.data = lowL w)

/-- A clean all-caps name line: a single-space join of clean words. -/
def isCleanCapsNameLine (l : String) : Prop :=
  ∃ ws : List (List Char), ws ≠ [] ∧ (∀ w ∈ ws, isCleanCapsWord w = true) ∧
    l.data = joinSp ws

theorem upper_not_digit {c : Char} (h : c.isUpper = true) : c.isDigit = false := by
  simp only [Char.isUpper, Char.isDigit] at *
  simp only [Bool.and_eq_true, decide_eq_true_eq] at h
  simp only [Bool.and_eq_false_iff, decide_eq_false_iff_not]
  right
  intro h2
  have e1 : (65 : UInt32).toNat ≤ c.val.toNat := h.1
  have e2 : c.val.toNat ≤ (57 : UInt32).toNat := h2
  norm_num [UInt32.size] at e1 e2
  omega

theorem upper_ne {c : Char} (d : Char) (h : c.isUpper = true)
    (hd : d.isUpper = false) : c ≠ d := by
  intro he
  rw [he, hd] at h
  exact Bool.noConfusion h

theorem upper_not_pySpace {c : Char} (h : c.isUpper = true) : pySpace c = false := by
  simp [pySpace, upper_ne ' ' h (by decide), upper_ne '\t' h (by decide),
    upper_ne '\n' h (by decide), upper_ne '\r' h (by decide),
    upper_ne '\x0b' h (by decide), upper_ne '\x0c' h (by decide)]

theorem upper_isWordChar {c : Char} (h : c.isUpper = true) : isWordChar c = true := by
  simp [isWordChar, Char.isAlpha, h]

/-- Characters of a clean line: upper-case letters or single spaces. -/
def goodChar (c : Char) : Prop := c.isUpper = true ∨ c = ' '

theorem goodChar_not_digit {c : Char} (h : goodChar c) : c.isDigit = false := by
  rcases h with h | h
  · exact upper_not_digit h
  · subst h; decide

theorem goodChar_notNSD {c : Char} (h : goodChar c) :
    (c.isDigit || c = '/' || c = '-') = false := by
  rcases h with h | h
  · simp [upper_not_digit h, upper_ne '/' h (by decide), upper_ne '-' h (by decide)]
  · subst h; decide

theorem clean_word_facts {w : List Char} (h : isCleanCapsWord w = true) :
    w ≠ [] ∧ w.length ≤ 7 ∧ (∀ c ∈ w, c.isUpper = true) ∧
      (bannedWords.any (fun b => b.data = lowL w)) = false := by
  simp only [isCleanCapsWord, Bool.and_eq_true, Bool.not_eq_true',
    decide_eq_true_eq, List.all_eq_true] at h
  obtain ⟨⟨⟨h1, h2⟩, h3⟩, h4⟩ := h
  refine ⟨?_, h2, h3, h4⟩
  simpa using h1

/-- Every character of the join of clean words is good. -/
theorem joinSp_chars : ∀ ws : List (List Char),
    (∀ w ∈ ws, ∀ c ∈ w, c.isUpper = true) → ∀ c ∈ joinSp ws, goodChar c := by
  intro ws
  induction ws with
  | nil => intro _ c hc; exact absurd hc (List.not_mem_nil c)
  | cons w ws ih =>
    intro h c hc
    cases ws with
    | nil =>
      exact Or.inl (h w (List.mem_cons_self w []) c hc)
    | cons w2 ws2 =>
      rw [show joinSp (w :: w2 :: ws2) = w ++ ' ' :: joinSp (w2 :: ws2) from rfl] at hc
      rcases List.mem_append.mp hc with hw | hrest
      · exact Or.inl (h w (List.mem_cons_self w _) c hw)
      · rcases List.mem_cons.mp hrest with hsp | hj
        · exact Or.inr hsp
        · exact ih (fun x hx => h x (List.mem_cons_of_mem w hx)) c hj

/-- The join of a non-empty list of clean words is non-empty. -/
theorem joinSp_ne_nil : ∀ ws : List (List Char), ws ≠ [] →
    (∀ w ∈ ws, isCleanCapsWord w = true) → joinSp ws ≠ [] := by
  intro ws hne h
  cases ws with
  | nil => exact absurd rfl hne
  | cons w ws =>
    have hw := (clean_word_facts (h w (List.mem_cons_self w ws))).1
    cases ws with
    | nil =>
      simpa [joinSp] using hw
    | cons w2 ws2 =>
      rw [show joinSp (w :: w2 :: ws2) = w ++ ' ' :: joinSp (w2 :: ws2) from rfl]
      simp

/-- The head of the join of clean words is an upper-case letter. -/
theorem joinSp_head_upper : ∀ ws : List (List Char), ws ≠ [] →
    (∀ w ∈ ws, isCleanCapsWord w = true) →
    ∀ c ∈ (joinSp ws).head?, c.isUpper = true := by
  intro ws hne h c hc
  cases ws with
  | nil => exact absurd rfl hne
  | cons w ws =>
    obtain ⟨hw1, _, hw3, _⟩ := clean_word_facts (h w (List.mem_cons_self w ws))
    obtain ⟨d, t, hd⟩ := List.exists_cons_of_ne_nil hw1
    have hdu := hw3 d (by rw [hd]; exact List.mem_cons_self d t)
    cases ws with
    | nil =>
      rw [show joinSp [w] = w from rfl, hd] at hc
      simp only [List.head?_cons, Option.mem_def, Option.some.injEq] at hc
      rw [← hc]; exact hdu
    | cons w2 ws2 =>
      rw [show joinSp (w :: w2 :: ws2) = w ++ ' ' :: joinSp (w2 :: ws2) from rfl, hd] at hc
      simp only [List.cons_append, List.head?_cons, Option.mem_def,
        Option.some.injEq] at hc
      rw [← hc]; exact hdu

/-- The last character of the join of clean words is an upper-case
letter. -/
theorem joinSp_getLast_upper : ∀ ws : List (List Char), ws ≠ [] →
    (∀ w ∈ ws, isCleanCapsWord w = true) →
    ∀ c ∈ (joinSp ws).getLast?, c.isUpper = true := by
  intro ws
  induction ws with
  | nil => intro hne; exact absurd rfl hne
  | cons w ws ih =>
    intro _ h c hc
    cases ws with
    | nil =>
      obtain ⟨hw1, _, hw3, _⟩ := clean_word_facts (h w (List.mem_cons_self w []))
      rw [show joinSp [w] = w from rfl] at hc
      exact hw3 c (List.mem_of_mem_getLast? hc)
    | cons w2 ws2 =>
      have hj2 : joinSp (w2 :: ws2) ≠ [] :=
        joinSp_ne_nil _ (List.cons_ne_nil w2 ws2)
          (fun x hx => h x (List.mem_cons_of_mem w hx))
      rw [show joinSp (w :: w2 :: ws2) = w ++ ' ' :: joinSp (w2 :: ws2) from rfl] at hc
      rw [List.getLast?_append_of_ne_nil w (List.cons_ne_nil ' ' _)] at hc
      have : (' ' :: joinSp (w2 :: ws2)).getLast? = (joinSp (w2 :: ws2)).getLast? := by
        have := List.getLast?_append_of_ne_nil [' '] hj2
        simpa using this
      rw [this] at hc
      exact ih (List.cons_ne_nil w2 ws2) (fun x hx => h x (List.mem_cons_of_mem w hx)) c hc

theorem dropWhile_eq_self_of_head (p : Char → Bool) (cs : List Char)
    (h : ∀ c ∈ cs.head?, p c = false) : cs.dropWhile p = cs := by
  cases cs with
  | nil => rfl
  | cons c rest =>
    rw [List.dropWhile_cons, if_neg]
    simp [h c (by simp)]

/-- Stripping leaves a clean line unchanged. -/
theorem stripL_joinSp (ws : List (List Char)) (hne : ws ≠ [])
    (h : ∀ w ∈ ws, isCleanCapsWord w = true) : stripL (joinSp ws) = joinSp ws := by
  unfold stripL
  rw [dropWhile_eq_self_of_head _ _ (fun c hc =>
    upper_not_pySpace (joinSp_head_upper ws hne h c hc))]
  rw [dropWhile_eq_self_of_head _ _ (fun c hc => by
    rw [List.head?_reverse] at hc
    exact upper_not_pySpace (joinSp_getLast_upper ws hne h c hc))]
  exact List.reverse_reverse _

theorem subWsRuns_nil (b : Bool) : subWsRuns b [] = [] := by cases b <;> rfl

theorem subWsRuns_cons (b : Bool) (c : Char) (rest : List Char) :
    subWsRuns b (c :: rest) =
      if pySpace c then
        (if b then subWsRuns true rest else ' ' :: subWsRuns true rest)
      else c :: subWsRuns false rest := by
  cases b <;> rfl

theorem splitWsGo_nil (acc : List Char) :
    splitWsGo acc [] = if acc.isEmpty then [] else [acc.reverse] := rfl

theorem splitWsGo_cons (acc : List Char) (c : Char) (rest : List Char) :
    splitWsGo acc (c :: rest) =
      if pySpace c then
        (if acc.isEmpty then splitWsGo [] rest else acc.reverse :: splitWsGo [] rest)
      else splitWsGo (c :: acc) rest := rfl

theorem tryDatePat_nondigit (c : Char) (rest : List Char) (h : c.isDigit = false) :
    tryDatePat (c :: rest) = none := by
  unfold tryDatePat
  simp [List.takeWhile_cons, h]

theorem subDateGo_id : ∀ (cs : List Char) (fuel : Nat),
    (∀ c ∈ cs, c.isDigit = false) → cs.length ≤ fuel → subDateGo fuel cs = cs := by
  intro cs
  induction cs with
  | nil => intro fuel _ _; cases fuel <;> rfl
  | cons c rest ih =>
    intro fuel h hf
    cases fuel with
    | zero => simp at hf
    | succ f =>
      unfold subDateGo
      rw [tryDatePat_nondigit c rest (h c (List.mem_cons_self c rest))]
      rw [ih f (fun x hx => h x (List.mem_cons_of_mem c hx)) (by simpa using hf)]

theorem subDatePat_id (cs : List Char) (h : ∀ c ∈ cs, c.isDigit = false) :
    subDatePat cs = cs :=
  subDateGo_id cs cs.length h (Nat.le_refl _)

/-- A run substitution over characters outside its class is the
identity. -/
theorem subRunGo_nocls (inCls : Char → Bool) (lenP : Nat → Bool) :
    ∀ (cs : List Char) (pw : Bool), (∀ c ∈ cs, inCls c = false) →
      subRunGo inCls lenP [] pw cs = cs := by
  intro cs
  induction cs with
  | nil => intro pw _; rfl
  | cons c rest ih =>
    intro pw h
    simp only [subRunGo]
    rw [ih (isWordChar c) (fun x hx => h x (List.mem_cons_of_mem c hx))]
    simp [h c (List.mem_cons_self c rest)]

/-- Class of removal pattern 5 (upper-case letters and digits). -/
theorem caps8_cls_space : ((' ').isUpper || (' ').isDigit) = false := by decide

theorem subRunGo_word_mid : ∀ (w2 acc : List Char) (pw : Bool) (rest2 : List Char),
    acc ≠ [] → acc.length + w2.length ≤ 7 → (∀ c ∈ w2, c.isUpper = true) →
    subRunGo (fun c => c.isUpper || c.isDigit) (fun n => decide (n ≥ 8)) acc pw
        (w2 ++ ' ' :: rest2) =
      acc.reverse ++ (w2 ++ ' ' :: subRunGo (fun c => c.isUpper || c.isDigit)
        (fun n => decide (n ≥ 8)) [] false rest2) := by
  intro w2
  induction w2 with
  | nil =>
    intro acc pw rest2 hne hlen _
    have h8 : ¬ (8 ≤ acc.length) := by simp at hlen; omega
    simp only [List.nil_append, subRunGo]
    simp [hne, h8, isWordChar]
  | cons c w2 ih =>
    intro acc pw rest2 hne hlen hup
    have hc := hup c (List.mem_cons_self c w2)
    simp only [List.cons_append, subRunGo, List.append_eq]
    rw [ih (c :: acc) pw rest2 (List.cons_ne_nil c acc)
      (by simp at hlen ⊢; omega) (fun x hx => hup x (List.mem_cons_of_mem c hx))]
    simp [hne, hc]

theorem subRunGo_word_endlist : ∀ (w2 acc : List Char) (pw : Bool),
    acc ≠ [] → acc.length + w2.length ≤ 7 → (∀ c ∈ w2, c.isUpper = true) →
    subRunGo (fun c => c.isUpper || c.isDigit) (fun n => decide (n ≥ 8)) acc pw w2 =
      acc.reverse ++ w2 := by
  intro w2
  induction w2 with
  | nil =>
    intro acc pw hne hlen _
    have h8 : ¬ (8 ≤ acc.length) := by simp at hlen; omega
    simp only [subRunGo]
    simp [hne, h8]
  | cons c w2 ih =>
    intro acc pw hne hlen hup
    have hc := hup c (List.mem_cons_self c w2)
    simp only [subRunGo]
    rw [ih (c :: acc) pw (List.cons_ne_nil c acc)
      (by simp at hlen ⊢; omega) (fun x hx => hup x (List.mem_cons_of_mem c hx))]
    simp [hne, hc]

theorem subCaps8_word_sep (w rest2 : List Char) (hne : w ≠ []) (hlen : w.length ≤ 7)
    (hup : ∀ c ∈ w, c.isUpper = true) :
    subRunGo (fun c => c.isUpper || c.isDigit) (fun n => decide (n ≥ 8)) [] false
        (w ++ ' ' :: rest2) =
      w ++ ' ' :: subRunGo (fun c => c.isUpper || c.isDigit)
        (fun n => decide (n ≥ 8)) [] false rest2 := by
  obtain ⟨c, w2, rfl⟩ := List.exists_cons_of_ne_nil hne
  have hc := hup c (List.mem_cons_self c w2)
  simp only [List.cons_append, subRunGo, List.append_eq]
  rw [subRunGo_word_mid w2 [c] false rest2 (List.cons_ne_nil c [])
    (by simp at hlen ⊢; omega) (fun x hx => hup x (List.mem_cons_of_mem c hx))]
  simp [hc]

theorem subCaps8_word_end (w : List Char) (hne : w ≠ []) (hlen : w.length ≤ 7)
    (hup : ∀ c ∈ w, c.isUpper = true) :
    subRunGo (fun c => c.isUpper || c.isDigit) (fun n => decide (n ≥ 8)) [] false w = w := by
  obtain ⟨c, w2, rfl⟩ := List.exists_cons_of_ne_nil hne
  have hc := hup c (List.mem_cons_self c w2)
  simp only [subRunGo]
  rw [subRunGo_word_endlist w2 [c] false (List.cons_ne_nil c [])
    (by simp at hlen ⊢; omega) (fun x hx => hup x (List.mem_cons_of_mem c hx))]
  simp [hc]

theorem subCaps8_joinSp : ∀ ws : List (List Char), ws ≠ [] →
    (∀ w ∈ ws, isCleanCapsWord w = true) → subCaps8 (joinSp ws) = joinSp ws := by
  intro ws
  induction ws with
  | nil => intro hne; exact absurd rfl hne
  | cons w ws ih =>
    intro _ h
    obtain ⟨hw1, hw2, hw3, _⟩ := clean_word_facts (h w (List.mem_cons_self w ws))
    cases ws with
    | nil =>
      show subRunGo _ _ [] false (joinSp [w]) = joinSp [w]
      rw [show joinSp [w] = w from rfl]
      exact subCaps8_word_end w hw1 hw2 hw3
    | cons w2 ws2 =>
      show subRunGo _ _ [] false (joinSp (w :: w2 :: ws2)) = joinSp (w :: w2 :: ws2)
      rw [show joinSp (w :: w2 :: ws2) = w ++ ' ' :: joinSp (w2 :: ws2) from rfl]
      rw [subCaps8_word_sep w _ hw1 hw2 hw3]
      have := ih (List.cons_ne_nil w2 ws2) (fun x hx => h x (List.mem_cons_of_mem w hx))
      rw [show subCaps8 (joinSp (w2 :: ws2)) =
        subRunGo (fun c => c.isUpper || c.isDigit) (fun n => decide (n ≥ 8)) [] false
          (joinSp (w2 :: ws2)) from rfl] at this
      rw [this]

theorem tryCode_nodigit (cs : List Char) (h : ∀ c ∈ cs, c.isDigit = false) :
    tryCode cs = false := by
  unfold tryCode
  rcases hd : (cs.drop 4).take 7 with _ | ⟨d, t⟩
  · simp [hd]
  · have hdm : d ∈ cs :=
      List.mem_of_mem_drop (List.mem_of_mem_take (hd ▸ List.mem_cons_self d t))
    simp [hd, h d hdm]

theorem subCodeGo_id : ∀ (cs : List Char) (fuel : Nat) (pw : Bool),
    (∀ c ∈ cs, c.isDigit = false) → cs.length ≤ fuel → subCodeGo fuel pw cs = cs := by
  intro cs
  induction cs with
  | nil => intro fuel pw _ _; cases fuel <;> rfl
  | cons c rest ih =>
    intro fuel pw h hf
    cases fuel with
    | zero => simp at hf
    | succ f =>
      unfold subCodeGo
      rw [if_neg (by simp [tryCode_nodigit (c :: rest) h])]
      rw [ih f (isWordChar c) (fun x hx => h x (List.mem_cons_of_mem c hx))
        (by simpa using hf)]

theorem subCode_id (cs : List Char) (h : ∀ c ∈ cs, c.isDigit = false) :
    subCode cs = cs :=
  subCodeGo_id cs cs.length false h (Nat.le_refl _)

theorem containsSubL_head_ne (n : Char) (t cs : List Char)
    (h : ∀ c ∈ cs, c ≠ n) : containsSubL cs (n :: t) = false := by
  induction cs with
  | nil => rfl
  | cons d rest ih =>
    unfold containsSubL
    have hd := h d (List.mem_cons_self d rest)
    rw [ih (fun x hx => h x (List.mem_cons_of_mem d hx))]
    simp only [Bool.or_false]
    show (n :: t).isPrefixOf (d :: rest) = false
    simp [List.isPrefixOf_cons₂]
    intro he
    exact absurd he.symm hd

theorem subBranchLower_id (cs : List Char) (h : ∀ c ∈ cs, c ≠ 'b') :
    subBranchLower cs = cs := by
  unfold subBranchLower
  rw [show ("branch".data) = 'b' :: "ranch".data from rfl]
  rw [containsSubL_head_ne 'b' _ cs h]
  simp

theorem subAfterCh_id (t : Char) : ∀ cs : List Char,
    (∀ c ∈ cs, c ≠ t) → subAfterCh t false cs = cs := by
  intro cs
  induction cs with
  | nil => intro _; rfl
  | cons c rest ih =>
    intro h
    have hstep : subAfterCh t false (c :: rest) =
        (if c = t then ' ' :: subAfterCh t true rest
         else c :: subAfterCh t false rest) := rfl
    rw [hstep, if_neg (h c (List.mem_cons_self c rest))]
    rw [ih (fun x hx => h x (List.mem_cons_of_mem c hx))]

theorem map_self (f : Char → Char) : ∀ cs : List Char,
    (∀ c ∈ cs, f c = c) → cs.map f = cs := by
  intro cs
  induction cs with
  | nil => intro _; rfl
  | cons c rest ih =>
    intro h
    simp only [List.map_cons, h c (List.mem_cons_self c rest),
      ih (fun x hx => h x (List.mem_cons_of_mem c hx))]

theorem subPunct_id (cs : List Char) (h : ∀ c ∈ cs, goodChar c) :
    subPunct cs = cs := by
  unfold subPunct
  apply map_self
  intro c hc
  rcases h c hc with hu | hs
  · simp [upper_ne '(' hu (by decide), upper_ne ')' hu (by decide),
      upper_ne ',' hu (by decide), upper_ne '.' hu (by decide)]
  · subst hs; decide

theorem subWsRuns_word : ∀ (w : List Char) (b : Bool) (rest : List Char),
    w ≠ [] → (∀ c ∈ w, pySpace c = false) →
    subWsRuns b (w ++ rest) = w ++ subWsRuns false rest := by
  intro w
  induction w with
  | nil => intro b rest hne _; exact absurd rfl hne
  | cons c w2 ih =>
    intro b rest _ h
    rw [List.cons_append, subWsRuns_cons, if_neg (by simp [h c (List.mem_cons_self c w2)])]
    cases hw : w2 with
    | nil => simp
    | cons d w3 =>
      rw [← hw, ih false rest (by simp [hw]) (fun x hx => h x (List.mem_cons_of_mem c hx))]
      simp

theorem subWsRuns_joinSp : ∀ ws : List (List Char), ∀ b : Bool,
    (∀ w ∈ ws, isCleanCapsWord w = true) → subWsRuns b (joinSp ws) = joinSp ws := by
  intro ws
  induction ws with
  | nil => intro b _; rfl
  | cons w ws ih =>
    intro b h
    obtain ⟨hw1, _, hw3, _⟩ := clean_word_facts (h w (List.mem_cons_self w ws))
    have hwsp : ∀ c ∈ w, pySpace c = false := fun c hc => upper_not_pySpace (hw3 c hc)
    cases ws with
    | nil =>
      rw [show joinSp [w] = w from rfl]
      have := subWsRuns_word w b [] hw1 hwsp
      rw [subWsRuns_nil] at this
      simpa using this
    | cons w2 ws2 =>
      rw [show joinSp (w :: w2 :: ws2) = w ++ ' ' :: joinSp (w2 :: ws2) from rfl]
      rw [subWsRuns_word w b _ hw1 hwsp]
      rw [subWsRuns_cons, if_pos (by decide), if_neg (by decide)]
      rw [ih true (fun x hx => h x (List.mem_cons_of_mem w hx))]

theorem splitWsGo_word : ∀ (w acc rest : List Char),
    (∀ c ∈ w, pySpace c = false) →
    splitWsGo acc (w ++ rest) = splitWsGo (w.reverse ++ acc) rest := by
  intro w
  induction w with
  | nil => intro acc rest _; simp
  | cons c w2 ih =>
    intro acc rest h
    rw [List.cons_append, splitWsGo_cons, if_neg (by simp [h c (List.mem_cons_self c w2)])]
    rw [ih (c :: acc) rest (fun x hx => h x (List.mem_cons_of_mem c hx))]
    simp

theorem splitWsL_joinSp : ∀ ws : List (List Char),
    (∀ w ∈ ws, isCleanCapsWord w = true) → splitWsL (joinSp ws) = ws := by
  intro ws
  induction ws with
  | nil => intro _; rfl
  | cons w ws ih =>
    intro h
    obtain ⟨hw1, _, hw3, _⟩ := clean_word_facts (h w (List.mem_cons_self w ws))
    have hwsp : ∀ c ∈ w, pySpace c = false := fun c hc => upper_not_pySpace (hw3 c hc)
    cases ws with
    | nil =>
      show splitWsGo [] (joinSp [w]) = [w]
      rw [show joinSp [w] = w from rfl]
      rw [show splitWsGo [] w = splitWsGo [] (w ++ []) by simp]
      rw [splitWsGo_word w [] [] hwsp]
      rw [List.append_nil, splitWsGo_nil]
      rw [if_neg (by simpa using hw1)]
      simp
    | cons w2 ws2 =>
      show splitWsGo [] (joinSp (w :: w2 :: ws2)) = w :: w2 :: ws2
      rw [show joinSp (w :: w2 :: ws2) = w ++ ' ' :: joinSp (w2 :: ws2) from rfl]
      rw [splitWsGo_word w [] _ hwsp]
      rw [List.append_nil, splitWsGo_cons, if_pos (by decide)]
      rw [if_neg (by simpa using hw1)]
      have := ih (fun x hx => h x (List.mem_cons_of_mem w hx))
      rw [show splitWsL (joinSp (w2 :: ws2)) = splitWsGo [] (joinSp (w2 :: ws2)) from rfl] at this
      simp [this]

theorem subPin6_id (cs : List Char) (h : ∀ c ∈ cs, c.isDigit = false) :
    subPin6 cs = cs :=
  subRunGo_nocls Char.isDigit (fun n => n = 6) cs false h

theorem subLong10_id (cs : List Char) (h : ∀ c ∈ cs, c.isDigit = false) :
    subLong10 cs = cs :=
  subRunGo_nocls Char.isDigit (fun n => n ≥ 10) cs false h

theorem subAnyNum_id (cs : List Char) (h : ∀ c ∈ cs, c.isDigit = false) :
    subAnyNum cs = cs :=
  subRunGo_nocls Char.isDigit (fun n => n ≥ 1) cs false h

theorem mk_data_eq (s : String) : String.mk s.data = s := rfl

/-- A clean all-caps name line passes `clean_header_content` unchanged:
the loop body returns it as it is. -/
theorem cleanLineFull_fixed (l : String) (h : isCleanCapsNameLine l) :
    cleanLineFull l = some l := by
  obtain ⟨ws, hne, hws, hdata⟩ := h
  have hupall : ∀ w ∈ ws, ∀ c ∈ w, c.isUpper = true :=
    fun w hw => (clean_word_facts (hws w hw)).2.2.1
  have hchars : ∀ c ∈ l.data, goodChar c := by
    rw [hdata]; exact joinSp_chars ws hupall
  have hnodigit : ∀ c ∈ l.data, c.isDigit = false :=
    fun c hc => goodChar_not_digit (hchars c hc)
  have hstrip : stripL l.data = l.data := by
    rw [hdata]; exact stripL_joinSp ws hne hws
  have hnonnil : l.data ≠ [] := by
    rw [hdata]; exact joinSp_ne_nil ws hne hws
  have hcount : countNSD l.data = 0 := by
    unfold countNSD
    refine List.countP_eq_zero.mpr (fun c hc => ?_)
    simpa using goodChar_notNSD (hchars c hc)
  have hratio : ratioSkip l = false := by
    unfold ratioSkip
    rw [hcount]
    simp
  have happly : applyRemovePatterns l.data = l.data := by
    unfold applyRemovePatterns
    rw [subDatePat_id _ hnodigit, subPin6_id _ hnodigit, subLong10_id _ hnodigit,
      subAnyNum_id _ hnodigit]
    rw [show subCaps8 l.data = l.data by rw [hdata]; exact subCaps8_joinSp ws hne hws]
    rw [subCode_id _ hnodigit]
    rw [subBranchLower_id _ (fun c hc => by
      rcases hchars c hc with hu | hs
      · exact upper_ne 'b' hu (by decide)
      · subst hs; decide)]
    rw [subAfterCh_id ':' _ (fun c hc => by
      rcases hchars c hc with hu | hs
      · exact upper_ne ':' hu (by decide)
      · subst hs; decide)]
    rw [subAfterCh_id '-' _ (fun c hc => by
      rcases hchars c hc with hu | hs
      · exact upper_ne '-' hu (by decide)
      · subst hs; decide)]
    rw [subPunct_id _ hchars]
    rw [show subWsRuns false l.data = l.data by
      rw [hdata]; exact subWsRuns_joinSp ws false hws]
  have hsplit : splitWsL l.data = ws := by
    rw [hdata]; exact splitWsL_joinSp ws hws
  have hfilter : ws.filter (fun wd => !bannedWords.any (fun b => b.data = lowL wd)) = ws := by
    refine List.filter_eq_self.mpr (fun w hw => ?_)
    have := (clean_word_facts (hws w hw)).2.2.2
    simp [this]
  have hallsnw : allSpaceOrNonWord l.data = false := by
    have hhd : ∀ c ∈ l.data.head?, c.isUpper = true := by
      rw [hdata]; exact joinSp_head_upper ws hne hws
    cases hl : l.data with
    | nil => exact absurd hl hnonnil
    | cons c t =>
      have hcu : c.isUpper = true := by
        apply hhd
        rw [hl]
        simp
      simp [allSpaceOrNonWord, upper_not_pySpace hcu, upper_isWordChar hcu]
  have hrest : processLineRest l = some l := by
    unfold processLineRest
    simp only [happly, hsplit, hfilter, hdata.symm, hstrip]
    rw [if_neg (by simpa using hnonnil)]
    rw [if_neg (by simp [hallsnw])]
  unfold cleanLineFull
  rw [hstrip]
  rw [if_neg (by simpa using hnonnil)]
  rw [if_neg (by simp [hratio])]
  exact hrest

/-- `clean_header_content` is the identity on lists of clean all-caps
name lines. -/
theorem clean_header_content_fixed (xs : List String)
    (h : ∀ l ∈ xs, isCleanCapsNameLine l) : clean_header_content xs = xs := by
  induction xs with
  | nil => rfl
  | cons l ls ih =>
    unfold clean_header_content
    rw [List.filterMap_cons, cleanLineFull_fixed l (h l (List.mem_cons_self l ls))]
    have := ih (fun x hx => h x (List.mem_cons_of_mem l hx))
    unfold clean_header_content at this
    simp [this]

/-- C7: on every list of already-clean all-caps name lines, running the
noise stripper again over its own output produces no further change —
the output is a fixed point. -/
theorem c7_idempotent (xs : List String) (h : ∀ l ∈ xs, isCleanCapsNameLine l) :
    clean_header_content (clean_header_content xs) = clean_header_content xs := by
  rw [clean_header_content_fixed xs h]
  exact clean_header_content_fixed xs h

/-- C7 witness: the idempotence statement at a concrete two-line
already-clean input. -/
theorem c7_witness :
    clean_header_content (clean_header_content ["JOHN SMITH", "RAVI KUMAR"]) =
      clean_header_content ["JOHN SMITH", "RAVI KUMAR"] := by
  apply c7_idempotent
  intro l hl
  rcases List.mem_cons.mp hl with h1 | h1
  · subst h1
    exact ⟨["JOHN".data, "SMITH".data], by decide, by decide, by decide⟩
  · rcases List.mem_cons.mp h1 with h2 | h2
    · subst h2
      exact ⟨["RAVI".data, "KUMAR".data], by decide, by decide, by decide⟩
    · exact absurd h2 (List.not_mem_nil l)

end PdfExtract

